import Mathlib

/-!
Verification development for the URL extraction and normalization engine of
src/src/libserver/url.c (rspamd). The C code is shallowly embedded over byte
lists (List Nat, one entry per byte). Reads past the end of a slice return 0,
matching the NUL terminator of the C strings handed to these functions.
-/

set_option maxRecDepth 20000

namespace UrlSpec

/-- ASCII g_ascii_isspace: space, tab, newline, vertical tab, form feed, carriage return. -/
def g_ascii_isspace (c : Nat) : Bool :=
  c = 32 || c = 9 || c = 10 || c = 11 || c = 12 || c = 13

/-- ASCII digit. -/
def g_ascii_isdigit (c : Nat) : Bool := 48 ≤ c && c ≤ 57

/-- ASCII alphanumeric. -/
def g_ascii_isalnum (c : Nat) : Bool :=
  (48 ≤ c && c ≤ 57) || (65 ≤ c && c ≤ 90) || (97 ≤ c && c ≤ 122)

/-- ASCII hex digit. -/
def g_ascii_isxdigit (c : Nat) : Bool :=
  (48 ≤ c && c ≤ 57) || (65 ≤ c && c ≤ 70) || (97 ≤ c && c ≤ 102)

/-- ASCII printable character other than space (isgraph). -/
def g_ascii_isgraph (c : Nat) : Bool := 33 ≤ c && c ≤ 126

/-- ASCII lowercasing of one byte. -/
def g_ascii_tolower (c : Nat) : Nat := if 65 ≤ c ∧ c ≤ 90 then c + 32 else c

/-- The 256-entry classification table url_scanner_table from url.c.
Bits: 1 = IS_LWSP, 2 = IS_DOMAIN, 4 = IS_URLSAFE, 8 = IS_MAILSAFE, 16 = IS_DOMAIN_END. -/
def url_scanner_table : List Nat :=
  [0, 0, 0, 0, 0, 0, 0, 0, 0, 1, 1, 1, 1, 1, 0, 0,
  0, 0, 0, 0, 0, 0, 0, 0, 0, 0, 0, 0, 0, 0, 0, 0,
  1, 8, 28, 8, 8, 14, 0, 8, 8, 8, 8, 8, 8, 14, 14, 24,
  14, 14, 14, 14, 14, 14, 14, 14, 14, 14, 16, 8, 28, 0, 28, 16,
  0, 14, 14, 14, 14, 14, 14, 14, 14, 14, 14, 14, 14, 14, 14, 14,
  14, 14, 14, 14, 14, 14, 14, 14, 14, 14, 14, 8, 14, 8, 14, 14,
  28, 14, 14, 14, 14, 14, 14, 14, 14, 14, 14, 14, 14, 14, 14, 14,
  14, 14, 14, 14, 14, 14, 14, 14, 14, 14, 14, 28, 28, 28, 28, 0,
  6, 6, 6, 6, 6, 6, 6, 6, 6, 6, 6, 6, 6, 6, 6, 6,
  6, 6, 6, 6, 6, 6, 6, 6, 6, 6, 6, 6, 6, 6, 6, 6,
  6, 6, 6, 6, 6, 6, 6, 6, 6, 6, 6, 6, 6, 6, 6, 6,
  6, 6, 6, 6, 6, 6, 6, 6, 6, 6, 6, 6, 6, 6, 6, 6,
  6, 6, 6, 6, 6, 6, 6, 6, 6, 6, 6, 6, 6, 6, 6, 6,
  6, 6, 6, 6, 6, 6, 6, 6, 6, 6, 6, 6, 6, 6, 6, 6,
  6, 6, 6, 6, 6, 6, 6, 6, 6, 6, 6, 6, 6, 6, 6, 6,
  6, 6, 6, 6, 6, 6, 6, 6, 6, 6, 6, 6, 6, 6, 6, 6]

/-- Table lookup for one byte. -/
def tableBits (c : Nat) : Nat := url_scanner_table.getD c 0

/-- is_lwsp macro from url.c. -/
def is_lwsp (c : Nat) : Bool := tableBits c &&& 1 ≠ 0

/-- is_mailsafe macro from url.c. -/
def is_mailsafe (c : Nat) : Bool := tableBits c &&& 8 ≠ 0

/-- is_domain macro from url.c. -/
def is_domain (c : Nat) : Bool := tableBits c &&& 2 ≠ 0

/-- is_urlsafe macro from url.c. -/
def is_urlsafe (c : Nat) : Bool := tableBits c &&& 4 ≠ 0

/-- is_url_start from url.c: opening parenthesis, opening brace, less-than, single quote. -/
def is_url_start (c : Nat) : Bool := c = 40 || c = 123 || c = 60 || c = 39

/-- is_url_end from url.c: closing parenthesis, closing brace, greater-than, single quote. -/
def is_url_end (c : Nat) : Bool := c = 41 || c = 125 || c = 62 || c = 39

/-- Byte at index i of a slice; reads past the end return the NUL terminator 0. -/
def byteAt (s : List Nat) (i : Nat) : Nat := s.getD i 0

/-- Number of bytes a UTF-8 lead byte announces (g_utf8_skip table); 1 for
invalid lead bytes, as g_utf8_next_char would advance. -/
def utf8SkipLen (c : Nat) : Nat :=
  if c < 128 then 1
  else if c < 194 then 1
  else if c < 224 then 2
  else if c < 240 then 3
  else if c < 245 then 4
  else 1

/-- Is a byte a UTF-8 continuation byte. -/
def isUtf8Cont (c : Nat) : Bool := 128 ≤ c && c < 192

/-- g_utf8_get_char_validated on the bytes starting the list: the decoded code
point, or -1 for an invalid sequence, or -2 for an incomplete sequence at the
end of the buffer.  Standard strict UTF-8 validation (no overlong forms, no
surrogates, max U+10FFFF). -/
def g_utf8_get_char_validated (s : List Nat) : Int :=
  match s with
  | [] => -2
  | b0 :: rest =>
    if b0 < 128 then Int.ofNat b0
    else if b0 < 194 then -1
    else if b0 < 224 then
      match rest with
      | [] => -2
      | b1 :: _ =>
        if isUtf8Cont b1 then Int.ofNat ((b0 - 192) * 64 + (b1 - 128)) else -1
    else if b0 < 240 then
      match rest with
      | [] => -2
      | [b1] => if isUtf8Cont b1 then -2 else -1
      | b1 :: b2 :: _ =>
        if isUtf8Cont b1 && isUtf8Cont b2 then
          let v := (b0 - 224) * 4096 + (b1 - 128) * 64 + (b2 - 128)
          if v < 2048 then -1
          else if 55296 ≤ v ∧ v ≤ 57343 then -1
          else Int.ofNat v
        else -1
    else if b0 < 245 then
      match rest with
      | [] => -2
      | [b1] => if isUtf8Cont b1 then -2 else -1
      | [b1, b2] => if isUtf8Cont b1 && isUtf8Cont b2 then -2 else -1
      | b1 :: b2 :: b3 :: _ =>
        if isUtf8Cont b1 && isUtf8Cont b2 && isUtf8Cont b3 then
          let v := (b0 - 240) * 262144 + (b1 - 128) * 4096 + (b2 - 128) * 64 + (b3 - 128)
          if v < 65536 then -1
          else if v > 1114111 then -1
          else Int.ofNat v
        else -1
    else -1

/-- g_unichar_isalnum, parameterized: the classification of code points below
128 is the ASCII one; the classification of higher code points (full Unicode
tables, external to the repository) is taken as a parameter hi. -/
def g_unichar_isalnum (hi : Nat → Bool) (u : Nat) : Bool :=
  if u < 128 then g_ascii_isalnum u else hi u

/-- One field of struct http_parser_url: offset and length into the parsed string. -/
structure FieldData where
  off : Nat
  len : Nat
deriving Repr, DecidableEq

/-- Model of struct http_parser_url: the optional fields set by the parsers
(field_set bit plus field_data entry) and the port. UF_PORT is never emitted
by these parsers, so it is not modelled as a field entry. -/
structure HttpUrl where
  schema : Option FieldData := none
  host : Option FieldData := none
  path : Option FieldData := none
  query : Option FieldData := none
  fragment : Option FieldData := none
  userinfo : Option FieldData := none
  port : Nat := 0
deriving Repr, DecidableEq

/-- The zero-initialized http_parser_url. -/
def emptyHttpUrl : HttpUrl := {}

/-! ## The mailto state machine: rspamd_mailto_parse -/

/-- States of rspamd_mailto_parse. -/
inductive MSt where
  | mailto | slash | slash_slash | semicolon | prefix_question | destination
  | equal | user | at | domain | suffix_question | query
deriving Repr, DecidableEq

/-- Running state of the mailto machine: cursor p, component start c, current
state, and the fields recorded so far. -/
structure MState where
  p : Nat
  c : Nat
  st : MSt
  u : HttpUrl
deriving Repr, DecidableEq

/-- How the mailto loop ended: end of input, or a goto out. -/
inductive MExit where
  | eoi | toOut | fuelOut
deriving Repr, DecidableEq

/-- One iteration of the while loop of rspamd_mailto_parse, on byte t. Returns
the next state, or the state at a goto out. -/
def mailtoStep (s : List Nat) (w : MState) : Sum MState MState :=
  let t := byteAt s w.p
  match w.st with
  | .mailto =>
    if t = 58 then
      .inl { w with st := .semicolon, p := w.p + 1,
                    u := { w.u with schema := some ⟨w.c, w.p - w.c⟩ } }
    else .inl { w with p := w.p + 1 }
  | .semicolon =>
    if t = 47 then .inl { w with st := .slash, p := w.p + 1 }
    else .inl { w with st := .slash_slash }
  | .slash =>
    if t = 47 then .inl { w with st := .slash_slash, p := w.p + 1 }
    else .inr w
  | .slash_slash =>
    if t = 63 then .inl { w with st := .prefix_question, p := w.p + 1 }
    else if t ≠ 47 then .inl { w with c := w.p, st := .user }
    else .inl { w with p := w.p + 1 }
  | .prefix_question =>
    if t = 116 then .inl { w with st := .destination }
    else .inr w
  | .destination =>
    if t = 61 then .inl { w with st := .equal, p := w.p + 1 }
    else .inl { w with p := w.p + 1 }
  | .equal =>
    .inl { w with c := w.p, st := .user }
  | .user =>
    if t = 64 then
      if w.p - w.c = 0 then .inr w
      else .inl { w with st := .at, p := w.p + 1,
                         u := { w.u with userinfo := some ⟨w.c, w.p - w.c⟩ } }
    else if ¬ is_mailsafe t then .inr w
    else .inl { w with p := w.p + 1 }
  | .at =>
    .inl { w with c := w.p, st := .domain }
  | .domain =>
    if t = 63 then
      .inl { w with st := .suffix_question, p := w.p + 1,
                    u := { w.u with host := some ⟨w.c, w.p - w.c⟩ } }
    else if ¬ is_domain t ∧ t ≠ 46 ∧ t ≠ 95 then .inr w
    else .inl { w with p := w.p + 1 }
  | .suffix_question =>
    .inl { w with c := w.p, st := .query }
  | .query =>
    if ¬ is_mailsafe t then .inr w
    else .inl { w with p := w.p + 1 }

/-- The while loop of rspamd_mailto_parse, with fuel (the loop always
terminates on real inputs; the fuel passed by rspamd_mailto_parse suffices). -/
def mailtoLoop (s : List Nat) : Nat → MState → MState × MExit
  | 0, w => (w, .fuelOut)
  | fuel + 1, w =>
    if w.p < s.length then
      match mailtoStep s w with
      | .inl w2 => mailtoLoop s fuel w2
      | .inr w2 => (w2, .toOut)
    else (w, .eoi)

/-- Result of rspamd_mailto_parse: return code (0 = success), the end cursor,
and the populated http_parser_url. -/
structure ParseRes where
  ret : Nat
  endPos : Nat
  u : HttpUrl
deriving Repr, DecidableEq

/-- The code after the while loop of rspamd_mailto_parse: the accepting-state
analysis, reached only when the loop fell off the end of the input. -/
def mailtoFinish (w : MState) (ex : MExit) : MState × Nat :=
  match ex with
  | .eoi =>
    match w.st with
    | .domain =>
      if w.p ≠ w.c then
        ({ w with u := { w.u with host := some ⟨w.c, w.p - w.c⟩ } }, 0)
      else (w, 1)
    | .query =>
      if w.p - w.c > 0 then
        ({ w with u := { w.u with query := some ⟨w.c, w.p - w.c⟩ } }, 0)
      else (w, 0)
    | _ => (w, 1)
  | _ => (w, 1)

/-- rspamd_mailto_parse from url.c. In non-strict mode the function returns 0
unconditionally (the final if statement of the C function). -/
def rspamd_mailto_parse (strict : Bool) (s : List Nat) : ParseRes :=
  let r := mailtoLoop s (2 * s.length + 16) ⟨0, 0, .mailto, emptyHttpUrl⟩
  let f := mailtoFinish r.1 r.2
  { ret := if strict then f.2 else 0, endPos := f.1.p, u := f.1.u }


/-! ## strtoul models -/

/-- Value of one ASCII digit. -/
def digitVal (c : Nat) : Nat := c - 48

/-- Accumulate base-10 digits as strtoul does on an unsigned long: on overflow
the result saturates at ULONG_MAX (2^64 - 1). Returns the value and the number
of bytes consumed. -/
def strtoul10Go (s : List Nat) (v : Nat) (consumed : Nat) : Nat × Nat :=
  match s with
  | [] => (v, consumed)
  | c :: rest =>
    if g_ascii_isdigit c then
      let v2 := v * 10 + digitVal c
      strtoul10Go rest (if v2 ≥ 2 ^ 64 then 2 ^ 64 - 1 else v2) (consumed + 1)
    else (v, consumed)

/-- strtoul with base 10 on a byte slice. At every call site in url.c the
slice starts with the digit run itself (never whitespace or a sign), so only
the digit-run prefix is modelled. -/
def strtoul10 (s : List Nat) : Nat × Nat := strtoul10Go s 0 0

/-- Reinterpret an unsigned 64-bit value as a signed 64-bit glong, as the
assignment glong pt = strtoul (...) does. -/
def signed64 (v : Nat) : Int :=
  if v < 2 ^ 63 then Int.ofNat v else Int.ofNat v - 2 ^ 64

/-- glong pt = strtoul (c, NULL, 10) from rspamd_web_parse. -/
def strtoulSigned (s : List Nat) : Int := signed64 (strtoul10 s).1

/-- Truncation of a signed value to the uint16_t port field of
http_parser_url. -/
def toU16 (i : Int) : Nat := (i.emod 65536).toNat

/-! ## The web state machine: rspamd_web_parse -/

/-- States of rspamd_web_parse. -/
inductive WSt where
  | protocol | slash | slash_slash | semicolon | user | at
  | password_start | password | domain | ipv6 | port_password | port
  | suffix_slash | path | query | part
deriving Repr, DecidableEq

/-- Running state of the web machine: cursor p, component start c, the
position of the last slash-slash rewind point, the user_seen flag, the last
examined byte t, the current state and the fields recorded so far. -/
structure WState where
  p : Nat
  c : Nat
  slashPos : Nat
  userSeen : Bool
  t : Nat
  st : WSt
  u : HttpUrl
deriving Repr, DecidableEq

/-- How the web loop ended: end of input, goto set, goto out (or out of fuel,
which cannot happen for the fuel used by rspamd_web_parse). -/
inductive WExit where
  | eoi | toSet | toOut | fuelOut
deriving Repr, DecidableEq

/-- Outcome of one web loop iteration. -/
inductive WStep where
  | cont (w : WState)
  | set (w : WState)
  | out (w : WState)
deriving Repr, DecidableEq

/-- One iteration of the while loop of rspamd_web_parse, on byte t = s[p].
strict selects strict parsing; hi classifies non-ASCII code points for
g_unichar_isalnum. -/
def webStep (strict : Bool) (hi : Nat → Bool) (s : List Nat) (w0 : WState) : WStep :=
  let t := byteAt s w0.p
  let w := { w0 with t := t }
  match w.st with
  | .protocol =>
    if t = 58 then
      .cont { w with st := .semicolon, p := w.p + 1,
                     u := { w.u with schema := some ⟨w.c, w.p - w.c⟩ } }
    else if ¬ g_ascii_isalnum t ∧ t ≠ 43 ∧ t ≠ 45 then
      if ¬ strict ∧ w.p > w.c then
        .cont { w with st := .domain, p := w.c, slashPos := w.c }
      else .out w
    else .cont { w with p := w.p + 1 }
  | .semicolon =>
    if t = 47 then .cont { w with st := .slash, p := w.p + 1 }
    else .cont { w with st := .slash_slash }
  | .slash =>
    if t = 47 then .cont { w with st := .slash_slash, p := w.p + 1 }
    else .out w
  | .slash_slash =>
    if t ≠ 47 then
      if t = 91 then
        .cont { w with st := .ipv6, slashPos := w.p, p := w.p + 1, c := w.p + 1 }
      else
        .cont { w with st := .domain, c := w.p, slashPos := w.p }
    else .cont { w with p := w.p + 1 }
  | .ipv6 =>
    if t = 93 then
      if w.p = w.c then .out w
      else
        let w1 := { w with u := { w.u with host := some ⟨w.c, w.p - w.c⟩ }, p := w.p + 1 }
        let t2 := byteAt s w1.p
        if t2 = 58 then .cont { w1 with st := .port, c := w1.p + 1, p := w1.p + 1 }
        else if t2 = 47 then .cont { w1 with st := .path, c := w1.p + 1, p := w1.p + 1 }
        else if w1.p ≠ s.length then .out w1
        else .cont { w1 with p := w1.p + 1 }
    else if ¬ g_ascii_isxdigit t ∧ t ≠ 58 ∧ t ≠ 46 then .out w
    else .cont { w with p := w.p + 1 }
  | .user =>
    if t = 58 then
      if w.p = w.c then .out w
      else .cont { w with st := .password_start, p := w.p + 1,
                          u := { w.u with userinfo := some ⟨w.c, w.p - w.c⟩ } }
    else if t = 64 then
      if w.p = w.c then .out w
      else .cont { w with st := .at, p := w.p + 1,
                          u := { w.u with userinfo := some ⟨w.c, w.p - w.c⟩ } }
    else if ¬ g_ascii_isgraph t then .out w
    else .cont { w with p := w.p + 1 }
  | .password_start =>
    if t = 64 then .cont { w with st := .at, p := w.p + 1 }
    else .cont { w with c := w.p, st := .password, p := w.p + 1 }
  | .password =>
    if t = 64 then .cont { w with st := .at, p := w.p + 1 }
    else if ¬ g_ascii_isgraph t then .out w
    else .cont { w with p := w.p + 1 }
  | .at =>
    if t = 91 then
      .cont { w with st := .ipv6, p := w.p + 1, c := w.p + 1 }
    else .cont { w with c := w.p, st := .domain }
  | .domain =>
    if t = 47 ∨ t = 58 ∨ t = 63 ∨ t = 35 then
      if w.p = w.c then .out w
      else if t = 47 then
        .cont { w with st := .suffix_slash, p := w.p + 1,
                       u := { w.u with host := some ⟨w.c, w.p - w.c⟩ } }
      else if t = 63 then
        .cont { w with st := .query, c := w.p + 1, p := w.p + 1,
                       u := { w.u with host := some ⟨w.c, w.p - w.c⟩ } }
      else if t = 35 then
        .cont { w with st := .part, c := w.p + 1, p := w.p + 1,
                       u := { w.u with host := some ⟨w.c, w.p - w.c⟩ } }
      else if ¬ w.userSeen then
        .cont { w with st := .port_password, p := w.p + 1 }
      else
        .cont { w with st := .port, c := w.p + 1, p := w.p + 1,
                       u := { w.u with host := some ⟨w.c, w.p - w.c⟩ } }
    else
      if is_url_end t then .set w
      else if t ≠ 46 ∧ t ≠ 45 ∧ t ≠ 95 ∧ t ≠ 37 then
        let uc := g_utf8_get_char_validated (s.drop w.p)
        if uc = -1 then .out w
        else if ¬ (0 ≤ uc ∧ g_unichar_isalnum hi uc.toNat) then
          if strict then .out w else .set w
        else .cont { w with p := w.p + utf8SkipLen t }
      else .cont { w with p := w.p + 1 }
  | .port_password =>
    if g_ascii_isdigit t then
      .cont { w with st := .port, c := w.p,
                     u := { w.u with host := some ⟨w.slashPos, w.p - 1 - w.slashPos⟩ } }
    else
      .cont { w with p := w.slashPos, c := w.slashPos, userSeen := true, st := .user }
  | .port =>
    if t = 47 ∨ t = 63 ∨ t = 35 then
      let pt := strtoulSigned (s.drop w.c)
      if pt = 0 ∨ pt > 65535 then .out w
      else
        let w1 := { w with u := { w.u with port := toU16 pt } }
        if t = 47 then .cont { w1 with st := .suffix_slash, p := w1.p + 1 }
        else if t = 63 then .cont { w1 with st := .query, c := w1.p + 1, p := w1.p + 1 }
        else .cont { w1 with st := .part, c := w1.p + 1, p := w1.p + 1 }
    else if is_url_end t then .set w
    else if ¬ g_ascii_isdigit t then
      if strict ∨ ¬ g_ascii_isspace t then .out w
      else .set w
    else .cont { w with p := w.p + 1 }
  | .suffix_slash =>
    if t ≠ 47 then .cont { w with c := w.p, st := .path }
    else .cont { w with p := w.p + 1 }
  | .path =>
    if t = 63 then
      let w1 := if w.p ≠ w.c then { w with u := { w.u with path := some ⟨w.c, w.p - w.c⟩ } } else w
      .cont { w1 with c := w1.p + 1, st := .query, p := w1.p + 1 }
    else if is_url_end t then .set w
    else if is_lwsp t then
      if strict then (if g_ascii_isspace t then .set w else .out w)
      else .set w
    else .cont { w with p := w.p + 1 }
  | .query =>
    if t = 35 then
      let w1 := if w.p ≠ w.c then { w with u := { w.u with query := some ⟨w.c, w.p - w.c⟩ } } else w
      .cont { w1 with c := w1.p + 1, st := .part, p := w1.p + 1 }
    else if is_url_end t then .set w
    else if is_lwsp t then
      if strict then (if g_ascii_isspace t then .set w else .out w)
      else .set w
    else .cont { w with p := w.p + 1 }
  | .part =>
    if is_url_end t then .set w
    else if is_lwsp t then
      if strict then (if g_ascii_isspace t then .set w else .out w)
      else .set w
    else .cont { w with p := w.p + 1 }

/-- The while loop of rspamd_web_parse, with fuel (the fuel passed by
rspamd_web_parse suffices for every input). -/
def webLoop (strict : Bool) (hi : Nat → Bool) (s : List Nat) : Nat → WState → WState × WExit
  | 0, w => (w, .fuelOut)
  | fuel + 1, w =>
    if w.p < s.length then
      match webStep strict hi s w with
      | .cont w2 => webLoop strict hi s fuel w2
      | .set w2 => (w2, .toSet)
      | .out w2 => (w2, .toOut)
    else (w, .eoi)

/-- The set label of rspamd_web_parse: the accepting-state analysis, reached
when the loop fell off the end of the input or on a goto set. A goto out
skips it and leaves ret = 1. -/
def webFinish (s : List Nat) (w : WState) (ex : WExit) : WState × Nat :=
  match ex with
  | .eoi | .toSet =>
    match w.st with
    | .domain =>
      if w.p = w.c then (w, 1)
      else ({ w with u := { w.u with host := some ⟨w.c, w.p - w.c⟩ } }, 0)
    | .port =>
      let pt := strtoulSigned (s.drop w.c)
      if pt = 0 ∨ pt > 65535 then (w, 1)
      else ({ w with u := { w.u with port := toU16 pt } }, 0)
    | .suffix_slash => (w, 0)
    | .path =>
      if w.p - w.c > 0 then
        ({ w with u := { w.u with path := some ⟨w.c, w.p - w.c⟩ } }, 0)
      else (w, 0)
    | .query =>
      if w.p - w.c > 0 then
        ({ w with u := { w.u with query := some ⟨w.c, w.p - w.c⟩ } }, 0)
      else (w, 0)
    | .part =>
      if w.p - w.c > 0 then
        ({ w with u := { w.u with fragment := some ⟨w.c, w.p - w.c⟩ } }, 0)
      else (w, 0)
    | .ipv6 => if w.t ≠ 93 then (w, 1) else (w, 0)
    | _ => (w, 1)
  | _ => (w, 1)

/-- rspamd_web_parse from url.c. -/
def rspamd_web_parse (strict : Bool) (hi : Nat → Bool) (s : List Nat) : ParseRes :=
  let r := webLoop strict hi s (8 * s.length + 32) ⟨0, 0, 0, false, 0, .protocol, emptyHttpUrl⟩
  let f := webFinish s r.1 r.2
  { ret := f.2, endPos := f.1.p, u := f.1.u }

/-! ## Percent decoding, lowercasing, case-insensitive comparison -/

/-- Value of an ASCII hex digit. -/
def hexVal (c : Nat) : Nat :=
  if c ≤ 57 then c - 48 else if c ≤ 70 then c - 55 else c - 87

/-- Modelled from the spec: rspamd_decode_url (libutil, not under src/).
Decodes every percent escape of two hex digits in place; an invalid escape
(a percent sign not followed by two hex digits) is left literal. -/
def rspamd_decode_url : List Nat → List Nat
  | [] => []
  | 37 :: a :: b :: rest =>
    if g_ascii_isxdigit a ∧ g_ascii_isxdigit b then
      (hexVal a * 16 + hexVal b) :: rspamd_decode_url rest
    else 37 :: rspamd_decode_url (a :: b :: rest)
  | c :: rest => c :: rspamd_decode_url rest

/-- Modelled from the spec: rspamd_str_lc (libutil, not under src/): ASCII
lowercasing of the first k bytes of a buffer. -/
def lcFirst (k : Nat) (s : List Nat) : List Nat :=
  (s.take k).map g_ascii_tolower ++ s.drop k

/-- Modelled from the spec: rspamd_str_lc_utf8 (libutil, not under src/):
lowercasing of a byte region. ASCII bytes are lowercased; the Unicode simple
folding of non-ASCII sequences is modelled as the identity (no claim examines
a non-ASCII host byte). -/
def lcRegion (s : List Nat) (off len : Nat) : List Nat :=
  s.take off ++ ((s.drop off).take len).map g_ascii_tolower ++ s.drop (off + len)

/-- g_ascii_strncasecmp with the glib semantics: compare at most n bytes,
stopping at a NUL (here: a 0 byte or the end of either list), case
insensitively for ASCII. -/
def g_ascii_strncasecmp (s1 s2 : List Nat) : Nat → Nat → Int
  | _, 0 => 0
  | i, m + 1 =>
    let a := byteAt s1 i
    let b := byteAt s2 i
    if a ≠ 0 ∧ b ≠ 0 then
      let c1 := g_ascii_tolower a
      let c2 := g_ascii_tolower b
      if c1 ≠ c2 then (c1 : Int) - (c2 : Int)
      else g_ascii_strncasecmp s1 s2 (i + 1) m
    else (a : Int) - (b : Int)

/-! ## The rspamd_url record -/

/-- Model of struct rspamd_url. Component positions are offsets into string
(the C code stores pointers). hostBuf models the fresh buffer that
rspamd_url_is_ip allocates for a canonicalized numeric host; while it is none
the host lives at hostOff inside string. tldOff is relative to the start of
the host. -/
structure RspamdUrl where
  string : List Nat := []
  protocol : Nat := 0
  port : Nat := 0
  userOff : Nat := 0
  userlen : Nat := 0
  hostOff : Nat := 0
  hostlen : Nat := 0
  dataOff : Nat := 0
  datalen : Nat := 0
  queryOff : Nat := 0
  querylen : Nat := 0
  fragmentOff : Nat := 0
  fragmentlen : Nat := 0
  tldOff : Nat := 0
  tldlen : Nat := 0
  protocollen : Nat := 0
  urllen : Nat := 0
  flags : Nat := 0
  hostBuf : Option (List Nat) := none
deriving Repr, DecidableEq, Inhabited

/-- The bytes of the host component. -/
def hostChars (u : RspamdUrl) : List Nat :=
  match u.hostBuf with
  | some b => b.take u.hostlen
  | none => (u.string.drop u.hostOff).take u.hostlen

/-- The URI component a decode step works on. -/
inductive UField where
  | schema | host | path | query | fragment
deriving Repr, DecidableEq

/-- One decode step of rspamd_url_parse: rspamd_decode_url on the component
region followed by rspamd_url_shift. The in-place write and the memmove of
the later bytes are modelled as a splice of the decoded region (the C buffer
keeps unreachable slack bytes past the moved data, which are not tracked).
The offset adjustments mirror the fallthrough switch of rspamd_url_shift:
a field offset is moved only when its length is positive, and when the
decoded length is not smaller than the old one rspamd_url_shift returns
without touching any length or offset. -/
def decodeAndShift (uri : RspamdUrl) (f : UField) : RspamdUrl :=
  match f with
  | .schema =>
    let old := uri.protocollen
    let dec := rspamd_decode_url (uri.string.take old)
    let str2 := dec ++ uri.string.drop old
    if dec.length ≥ old then { uri with string := str2 }
    else
      let sh := old - dec.length
      { uri with string := str2, protocollen := dec.length,
                 userOff := if uri.userlen > 0 then uri.userOff - sh else uri.userOff,
                 hostOff := if uri.hostlen > 0 then uri.hostOff - sh else uri.hostOff,
                 dataOff := if uri.datalen > 0 then uri.dataOff - sh else uri.dataOff,
                 queryOff := if uri.querylen > 0 then uri.queryOff - sh else uri.queryOff,
                 fragmentOff := if uri.fragmentlen > 0 then uri.fragmentOff - sh
                                else uri.fragmentOff }
  | .host =>
    let old := uri.hostlen
    let dec := rspamd_decode_url ((uri.string.drop uri.hostOff).take old)
    let str2 := uri.string.take uri.hostOff ++ dec ++ uri.string.drop (uri.hostOff + old)
    if dec.length ≥ old then { uri with string := str2 }
    else
      let sh := old - dec.length
      { uri with string := str2, hostlen := dec.length,
                 dataOff := if uri.datalen > 0 then uri.dataOff - sh else uri.dataOff,
                 queryOff := if uri.querylen > 0 then uri.queryOff - sh else uri.queryOff,
                 fragmentOff := if uri.fragmentlen > 0 then uri.fragmentOff - sh
                                else uri.fragmentOff }
  | .path =>
    let old := uri.datalen
    let dec := rspamd_decode_url ((uri.string.drop uri.dataOff).take old)
    let str2 := uri.string.take uri.dataOff ++ dec ++ uri.string.drop (uri.dataOff + old)
    if dec.length ≥ old then { uri with string := str2 }
    else
      let sh := old - dec.length
      { uri with string := str2, datalen := dec.length,
                 queryOff := if uri.querylen > 0 then uri.queryOff - sh else uri.queryOff,
                 fragmentOff := if uri.fragmentlen > 0 then uri.fragmentOff - sh
                                else uri.fragmentOff }
  | .query =>
    let old := uri.querylen
    let dec := rspamd_decode_url ((uri.string.drop uri.queryOff).take old)
    let str2 := uri.string.take uri.queryOff ++ dec ++ uri.string.drop (uri.queryOff + old)
    if dec.length ≥ old then { uri with string := str2 }
    else
      let sh := old - dec.length
      { uri with string := str2, querylen := dec.length,
                 fragmentOff := if uri.fragmentlen > 0 then uri.fragmentOff - sh
                                else uri.fragmentOff }
  | .fragment =>
    let old := uri.fragmentlen
    let dec := rspamd_decode_url ((uri.string.drop uri.fragmentOff).take old)
    let str2 := uri.string.take uri.fragmentOff ++ dec ++
                uri.string.drop (uri.fragmentOff + old)
    if dec.length ≥ old then { uri with string := str2 }
    else { uri with string := str2, fragmentlen := dec.length }

/-- Protocol name table of rspamd_url_parse; the record field protocol stores
the table index, which coincides with enum rspamd_url_protocol
(0 file, 1 ftp, 2 http, 3 https, 4 mailto, 5 unknown). -/
def protocolLookup (uri : RspamdUrl) : Nat :=
  let pl := uri.protocollen
  let pre := uri.string.take pl
  if pl = 4 ∧ pre = [102, 105, 108, 101] then 0
  else if pl = 3 ∧ pre = [102, 116, 112] then 1
  else if pl = 4 ∧ pre = [104, 116, 116, 112] then 2
  else if pl = 5 ∧ pre = [104, 116, 116, 112, 115] then 3
  else if pl = 6 ∧ pre = [109, 97, 105, 108, 116, 111] then 4
  else 5

/-- The field extraction loop of rspamd_url_parse: copy every set field of
the http_parser_url into the rspamd_url record, plus the port. -/
def assembleFields (str : List Nat) (len : Nat) (u : HttpUrl) : RspamdUrl :=
  { string := str, urllen := len, port := u.port, protocol := 5,
    protocollen := (match u.schema with | some fd => fd.len | none => 0),
    hostOff := (match u.host with | some fd => fd.off | none => 0),
    hostlen := (match u.host with | some fd => fd.len | none => 0),
    dataOff := (match u.path with | some fd => fd.off | none => 0),
    datalen := (match u.path with | some fd => fd.len | none => 0),
    queryOff := (match u.query with | some fd => fd.off | none => 0),
    querylen := (match u.query with | some fd => fd.len | none => 0),
    fragmentOff := (match u.fragment with | some fd => fd.off | none => 0),
    fragmentlen := (match u.fragment with | some fd => fd.len | none => 0),
    userOff := (match u.userinfo with | some fd => fd.off | none => 0),
    userlen := (match u.userinfo with | some fd => fd.len | none => 0) }

/-! ## TLD classification -/

/-- A matcher as stored in the url_scanner: the trie pattern and its flag
set. Flag bits as in url.c: 1 = URL_FLAG_NOHTML, 2 = URL_FLAG_TLD_MATCH,
4 = URL_FLAG_STAR_MATCH. -/
structure UrlMatcher where
  pattern : List Nat
  flags : Nat
deriving Repr, DecidableEq, Inhabited

/-- The backward label walk of the tld trie callbacks. i encodes the cursor
p of the C loop as p + 1, so i = 0 is the p = start - 1 exit; nd is the
number of separators still wanted; pos is the running answer. Returns the
remaining nd, the final pos and the final i. -/
def dotWalk (host : List Nat) : Nat → Nat → Nat → Nat × Nat × Nat
  | i, 0, pos => (0, pos, i)
  | 0, nd, pos => (nd, pos, 0)
  | j + 1, nd, pos =>
    if byteAt host j = 46 then dotWalk host j (nd - 1) (j + 1)
    else dotWalk host j nd pos

/-- The accepted-hit tail of rspamd_tld_trie_callback: the backward walk
from the match start and, under the condition the C code tests (which the
walk in fact always establishes), the recording of the tld range up to the
end of the (possibly already shortened) host. -/
def tldWalkSet (host : List Nat) (matchStart ndots : Nat) (u2 : RspamdUrl) : RspamdUrl :=
  let w := dotWalk host matchStart ndots 0
  if w.1 = 0 ∨ w.2.2 = 0 then
    { u2 with tldOff := w.2.1, tldlen := u2.hostlen - w.2.1 }
  else u2

/-- The body of rspamd_tld_trie_callback on the matcher looked up for the
hit. -/
def tldUrlCallbackCore (m : UrlMatcher) (textpos : Nat) (url : RspamdUrl) :
    RspamdUrl × Bool :=
  let patlen := m.pattern.length
  let ndots := if m.flags &&& 4 = 0 then 1 else 2
  let host := hostChars url
  let matchStart := textpos - patlen
  let proceed : Option RspamdUrl :=
    if ¬ (byteAt host matchStart = 46 ∧ textpos = url.hostlen) then
      if textpos + 1 = url.hostlen then
        if byteAt host textpos = 46 then some { url with hostlen := url.hostlen - 1 }
        else some url
      else none
    else some url
  match proceed with
  | none => (url, false)
  | some u2 => (tldWalkSet host matchStart ndots u2, true)

/-- rspamd_tld_trie_callback from url.c, invoked on a trie hit (strnum,
textpos) while classifying url.host; it may strip a trailing dot by
decrementing hostlen and records the tld range. Returns the updated record
and whether the hit was accepted (callback result 1). -/
def rspamd_tld_trie_callback (pats : List UrlMatcher) (strnum textpos : Nat)
    (url : RspamdUrl) : RspamdUrl × Bool :=
  tldUrlCallbackCore (pats.getD strnum default) textpos url

/-- Callback state of rspamd_url_find_tld. -/
structure FindTldState where
  text : List Nat
  len : Nat
  out : Option (Nat × Nat)
deriving Repr, DecidableEq

/-- The accepted-hit tail of rspamd_tld_trie_find_callback: the backward
walk and the recording of the output range. -/
def tldFindSet (matchStart ndots : Nat) (cb : FindTldState) : FindTldState :=
  let w := dotWalk cb.text matchStart ndots 0
  if w.1 = 0 ∨ w.2.2 = 0 then
    { cb with out := some (w.2.1, cb.len - w.2.1) }
  else cb

/-- The body of rspamd_tld_trie_find_callback on the matcher looked up for
the hit. -/
def tldFindCallbackCore (m : UrlMatcher) (textpos : Nat) (cb : FindTldState) :
    FindTldState × Bool :=
  let patlen := m.pattern.length
  let ndots := if m.flags &&& 4 = 0 then 1 else 2
  let matchStart := textpos - patlen
  if ¬ (byteAt cb.text matchStart = 46 ∧ textpos = cb.len) ∧ textpos + 1 ≠ cb.len then
    (cb, false)
  else (tldFindSet matchStart ndots cb, true)

/-- rspamd_tld_trie_find_callback from url.c: like the url callback but on a
plain byte range; it accepts a hit one byte before the end without any dot
test and never shortens the range. -/
def rspamd_tld_trie_find_callback (pats : List UrlMatcher) (strnum textpos : Nat)
    (cb : FindTldState) : FindTldState × Bool :=
  tldFindCallbackCore (pats.getD strnum default) textpos cb

/-- Does pattern pat occur in text as the substring ending at offset endpos. -/
def patMatchesAt (pat text : List Nat) (endpos : Nat) : Bool :=
  pat.length ≤ endpos ∧ (text.take endpos).drop (endpos - pat.length) = pat

/-- Modelled from the spec: one report position of the Aho-Corasick scan
(acism.c is not under src/). At a given end offset every pattern ending
there is reported to the callback, in pattern order; a callback result of 1
stops the scan. -/
def acismAtPos {σ : Type} (text : List Nat) (cb : Nat → Nat → σ → σ × Bool)
    (endpos : Nat) : List (Nat × UrlMatcher) → σ → σ × Bool
  | [], st => (st, false)
  | (i, m) :: rest, st =>
    if patMatchesAt m.pattern text endpos then
      let r := cb i endpos st
      if r.2 then (r.1, true)
      else acismAtPos text cb endpos rest r.1
    else acismAtPos text cb endpos rest st

/-- Modelled from the spec: the scan loop of acism_lookup over all end
offsets 1..text.length in order. -/
def acismScanGo {σ : Type} (pats : List (Nat × UrlMatcher)) (text : List Nat)
    (cb : Nat → Nat → σ → σ × Bool) : Nat → Nat → σ → σ × Bool
  | _, 0, st => (st, false)
  | endpos, rem + 1, st =>
    let r := acismAtPos text cb endpos pats st
    if r.2 then (r.1, true)
    else acismScanGo pats text cb (endpos + 1) rem r.1

/-- Enumerate a matcher list with its indices. -/
def idxMatchers (pats : List UrlMatcher) : List (Nat × UrlMatcher) :=
  (List.range pats.length).map (fun i => (i, pats.getD i default))

/-- Modelled from the spec: acism_lookup over a pattern list. Returns the
threaded callback state and whether some callback stopped the scan (the
nonzero return that url.c tests). -/
def acism_lookup {σ : Type} (pats : List UrlMatcher) (text : List Nat)
    (cb : Nat → Nat → σ → σ × Bool) (st : σ) : σ × Bool :=
  acismScanGo (idxMatchers pats) text cb 1 text.length st

/-- The static matcher patterns of url.c (static_matchers), with their flag
sets; only the pattern and flags take part in TLD classification. -/
def staticMatchers : List UrlMatcher :=
  [⟨[102, 105, 108, 101, 58, 47, 47], 0⟩,
   ⟨[102, 116, 112, 58, 47, 47], 0⟩,
   ⟨[115, 102, 116, 112, 58, 47, 47], 0⟩,
   ⟨[104, 116, 116, 112, 58, 47, 47], 0⟩,
   ⟨[104, 116, 116, 112, 115, 58, 47, 47], 0⟩,
   ⟨[110, 101, 119, 115, 58, 47, 47], 0⟩,
   ⟨[110, 110, 116, 112, 58, 47, 47], 0⟩,
   ⟨[116, 101, 108, 110, 101, 116, 58, 47, 47], 0⟩,
   ⟨[119, 101, 98, 99, 97, 108, 58, 47, 47], 0⟩,
   ⟨[109, 97, 105, 108, 116, 111, 58], 0⟩,
   ⟨[99, 97, 108, 108, 116, 111, 58, 47, 47], 0⟩,
   ⟨[104, 51, 50, 51, 58], 0⟩,
   ⟨[115, 105, 112, 58], 0⟩,
   ⟨[119, 119, 119, 46], 0⟩,
   ⟨[102, 116, 112, 46], 1⟩,
   ⟨[64], 1⟩]

/-- g_strchomp: remove trailing ASCII whitespace. -/
def chomp (line : List Nat) : List Nat :=
  (line.reverse.dropWhile (fun c => g_ascii_isspace c)).reverse

/-- Index of the first dot, as strchr. -/
def findDot (l : List Nat) : Option Nat := l.findIdx? (fun c => c = 46)

/-- The per-line body of rspamd_url_parse_tld_file: skip comments, blank
lines and exception rules, handle the star prefix, and store the suffix with
a synthesized leading dot. Flags are URL_FLAG_NOHTML, URL_FLAG_TLD_MATCH and,
for a star rule, URL_FLAG_STAR_MATCH. -/
def tldLineMatcher (line : List Nat) : Option UrlMatcher :=
  match line with
  | [] => none
  | c :: _ =>
    if c = 47 ∨ g_ascii_isspace c then none
    else
      let l := chomp line
      if byteAt l 0 = 33 then none
      else if byteAt l 0 = 42 then
        match findDot l with
        | none => none
        | some i => some ⟨46 :: l.drop (i + 1), 7⟩
      else some ⟨46 :: l, 3⟩

/-- The scanner pattern set used for the concrete scenarios of the spec: the
static matchers plus the suffix rules com, co.uk and *.ck. -/
def scenarioMatchers : List UrlMatcher :=
  staticMatchers ++
    ([[99, 111, 109], [99, 111, 46, 117, 107], [42, 46, 99, 107]].filterMap tldLineMatcher)

/-! ## Numeric host decoding: rspamd_url_is_ip -/

/-- Hex digit run accumulator with strtoul saturation. -/
def hexRunGo (s : List Nat) (v k : Nat) : Nat × Nat :=
  match s with
  | [] => (v, k)
  | c :: rest =>
    if g_ascii_isxdigit c then
      let v2 := v * 16 + hexVal c
      hexRunGo rest (if v2 ≥ 2 ^ 64 then 2 ^ 64 - 1 else v2) (k + 1)
    else (v, k)

/-- Octal digit run accumulator with strtoul saturation. -/
def octRunGo (s : List Nat) (v k : Nat) : Nat × Nat :=
  match s with
  | [] => (v, k)
  | c :: rest =>
    if 48 ≤ c ∧ c ≤ 55 then
      let v2 := v * 8 + (c - 48)
      octRunGo rest (if v2 ≥ 2 ^ 64 then 2 ^ 64 - 1 else v2) (k + 1)
    else (v, k)

/-- strtoul with base 0 after the optional sign: hexadecimal after a 0x or 0X
prefix that is followed by a hex digit, octal after a leading 0, decimal
otherwise.  Returns the unsigned long value and the number of bytes
consumed. -/
def strtoul0Core (s : List Nat) : Nat × Nat :=
  match s with
  | 48 :: x :: rest =>
    if (x = 120 ∨ x = 88) ∧ g_ascii_isxdigit (byteAt rest 0) then
      let r := hexRunGo rest 0 0
      (r.1, r.2 + 2)
    else
      let r := octRunGo (48 :: x :: rest) 0 0
      (r.1, r.2)
  | _ =>
    match s with
    | 48 :: rest =>
      let r := octRunGo (48 :: rest) 0 0
      (r.1, r.2)
    | _ => strtoul10 s

/-- strtoul with base 0 as used on the components of a numeric host:
an optional sign (the value wraps around as an unsigned long), then the
base-0 number. Leading whitespace never occurs in a host component. Returns
the value and the number of consumed bytes; the component is valid when
every byte was consumed. -/
def strtoul0 (s : List Nat) : Nat × Nat :=
  match s with
  | 45 :: rest =>
    let r := strtoul0Core rest
    if r.2 = 0 then (0, 0) else ((2 ^ 64 - r.1 % 2 ^ 64) % 2 ^ 64, r.2 + 1)
  | 43 :: rest =>
    let r := strtoul0Core rest
    if r.2 = 0 then (0, 0) else (r.1, r.2 + 1)
  | _ => strtoul0Core s

/-- Decimal digit bytes of a number (for inet_ntop formatting). -/
def natDecBytes (n : Nat) : List Nat := (Nat.toDigits 10 n).map Char.toNat

/-- inet_ntop for AF_INET on the four address bytes in memory order:
the dotted-quad text. -/
def inet_ntop4 (b0 b1 b2 b3 : Nat) : List Nat :=
  natDecBytes b0 ++ 46 :: natDecBytes b1 ++ 46 :: natDecBytes b2 ++ 46 :: natDecBytes b3

/-- One dotted-quad group for inet_pton AF_INET: 1..3 decimal digits, value
at most 255, no leading zero (glibc semantics). Returns the value and rest. -/
def pton4Group (s : List Nat) : Option (Nat × List Nat) :=
  match s with
  | a :: rest =>
    if ¬ g_ascii_isdigit a then none
    else
      match rest with
      | b :: rest2 =>
        if ¬ g_ascii_isdigit b then some (a - 48, rest)
        else if a = 48 then none
        else
          match rest2 with
          | c :: rest3 =>
            if ¬ g_ascii_isdigit c then some ((a - 48) * 10 + (b - 48), rest2)
            else
              let v := (a - 48) * 100 + (b - 48) * 10 + (c - 48)
              if v ≤ 255 ∧ ¬ g_ascii_isdigit (byteAt rest3 0) then some (v, rest3)
              else none
          | [] => some ((a - 48) * 10 + (b - 48), [])
      | [] => some (a - 48, [])
  | [] => none

/-- Modelled libc inet_pton for AF_INET: a strict dotted quad of four groups.
Returns the four address bytes in memory (network) order. -/
def inet_pton4 (s : List Nat) : Option (Nat × Nat × Nat × Nat) :=
  match pton4Group s with
  | some (v0, 46 :: r1) =>
    match pton4Group r1 with
    | some (v1, 46 :: r2) =>
      match pton4Group r2 with
      | some (v2, 46 :: r3) =>
        match pton4Group r3 with
        | some (v3, []) => some (v0, v1, v2, v3)
        | _ => none
      | _ => none
    | _ => none
  | _ => none

/-- Split a byte list on colons. -/
def splitColon (s : List Nat) : List (List Nat) :=
  s.splitOnP (fun c => c = 58)

/-- A 16-bit IPv6 group: one to four hex digits. -/
def h16 (g : List Nat) : Option Nat :=
  if g.length = 0 ∨ g.length > 4 ∨ ¬ g.all (fun c => g_ascii_isxdigit c) then none
  else some (g.foldl (fun v c => v * 16 + hexVal c) 0)

/-- Parse a list of IPv6 groups into 16-bit values, where the last group may
be a dotted quad contributing two values. -/
def pton6Groups : List (List Nat) → Option (List Nat)
  | [] => some []
  | [g] =>
    if g.contains 46 then
      match inet_pton4 g with
      | some (a, b, c, d) => some [a * 256 + b, c * 256 + d]
      | none => none
    else (h16 g).map (fun v => [v])
  | g :: rest =>
    match h16 g, pton6Groups rest with
    | some v, some vs => some (v :: vs)
    | _, _ => none

/-- Modelled libc inet_pton for AF_INET6: colon-separated hex groups with at
most one double colon, optionally ending in a dotted quad. Returns the 16
address bytes. -/
def inet_pton6 (s : List Nat) : Option (List Nat) :=
  if ¬ s.contains 58 then none
  else
    let parts := splitColon s
    let emptyCount := (parts.filter (fun p => p.isEmpty)).length
    let toBytes (vs : List Nat) : List Nat :=
      vs.flatMap (fun v => [v / 256, v % 256])
    if emptyCount = 0 then
      match pton6Groups parts with
      | some vs => if vs.length = 8 then some (toBytes vs) else none
      | none => none
    else
      -- locate the double colon: an empty part (with leading and trailing
      -- double empties for a double colon at either end)
      let norm :=
        match parts with
        | [] :: [] :: rest => [] :: rest
        | ps => ps
      let norm2 :=
        match norm.reverse with
        | [] :: [] :: rest => ([] : List Nat) :: rest |>.reverse
        | _ => norm
      match norm2.findIdx? (fun p => p.isEmpty) with
      | none => none
      | some i =>
        let before := norm2.take i
        let after := norm2.drop (i + 1)
        if (before ++ after).any (fun p => p.isEmpty) then none
        else
          match pton6Groups before, pton6Groups after with
          | some vs1, some vs2 =>
            if vs1.length + vs2.length ≤ 7 then
              some (toBytes (vs1 ++ List.replicate (8 - vs1.length - vs2.length) 0 ++ vs2))
            else none
          | _, _ => none

/-- Lowercase hex bytes of a number (for inet_ntop AF_INET6 groups). -/
def natHexBytes (n : Nat) : List Nat := (Nat.toDigits 16 n).map Char.toNat

/-- Modelled libc inet_ntop for AF_INET6 on the 16 address bytes: the hex
groups separated by colons. Zero-run compression is not modelled; no claim
examines the textual form of an IPv6 host. -/
def inet_ntop6 (b16 : List Nat) : List Nat :=
  let gs := (List.range 8).map (fun i => byteAt b16 (2 * i) * 256 + byteAt b16 (2 * i + 1))
  List.intercalate [58] (gs.map natHexBytes)

/-- The trailing-dot strip of rspamd_url_is_ip: move the end of the host
left over trailing dots, not below p. -/
def dropTrailingDots (host : List Nat) : Nat → Nat → Nat
  | 0, _ => 0
  | e + 1, p => if e + 1 > p ∧ byteAt host e = 46 then dropTrailingDots host e p else e + 1

/-- Byte swap of the low 16 bits (GUINT16_TO_BE on a little-endian build). -/
def be16 (x : Nat) : Nat := (x &&& 255) <<< 8 ||| ((x >>> 8) &&& 255)

/-- Byte swap of the low 32 bits (GUINT32_TO_BE on a little-endian build). -/
def be32 (x : Nat) : Nat :=
  (x &&& 255) <<< 24 ||| ((x >>> 8) &&& 255) <<< 16 |||
    ((x >>> 16) &&& 255) <<< 8 ||| ((x >>> 24) &&& 255)

/-- Number of low-order octets of t that carry a nonzero remainder: the i
counted by the for loop of rspamd_url_is_ip. -/
def octetCount (t : Nat) : Nat :=
  if t = 0 then 0
  else if t < 256 then 1
  else if t < 65536 then 2
  else if t < 16777216 then 3
  else 4

/-- Accumulator of the obfuscated-numeric loop of rspamd_url_is_ip. -/
structure NumAcc where
  n : Nat
  dots : Nat
  shift : Nat
  t : Nat
  i : Nat
  c : Nat
  check : Bool
deriving Repr, DecidableEq

/-- One component step of the obfuscated-numeric loop at a dot or at the end
position. Returns none for the oversized-component early return. -/
def isIpComp (host : List Nat) (endPos p : Nat) (a : NumAcc) : Option NumAcc :=
  if p - a.c + 1 ≥ 47 then none
  else
    let buf := (host.take p).drop a.c
    let a := { a with c := p + 1,
                      dots := if p < endPos ∧ byteAt host p = 46 then a.dots + 1 else a.dots }
    let r := strtoul0 buf
    if r.2 = buf.length then
      let t := r.1 % 2 ^ 32
      let nshift := (if t = 0 then a.shift + 8 else a.shift) + 8 * octetCount t
      let i := octetCount t
      let t2 :=
        match i with
        | 4 => be32 t
        | 3 => be32 (t &&& 16777215) >>> 8
        | 2 => be16 (t &&& 65535)
        | _ => t &&& 255
      if p ≠ endPos then
        some { a with n := (a.n ||| t2 <<< a.shift) % 2 ^ 32, shift := nshift, t := t2, i := i }
      else
        some { a with t := t2, i := i }
    else
      some { a with check := false }

/-- The while loop of the obfuscated-numeric decoder, from position p while
p is at most endPos and the check flag holds. -/
def isIpLoop (host : List Nat) (endPos : Nat) : Nat → Nat → NumAcc → Option NumAcc
  | 0, _, a => some a
  | steps + 1, p, a =>
    if p ≤ endPos ∧ a.check then
      if a.shift < 32 ∧
          ((byteAt host p = 46 ∧ a.dots < 3) ∨ (p = endPos ∧ a.dots ≤ 3)) then
        match isIpComp host endPos p a with
        | none => none
        | some a2 => isIpLoop host endPos steps (p + 1) a2
      else isIpLoop host endPos steps (p + 1) a
    else some a

/-- rspamd_url_is_ip from url.c, parameterized by the libc address parsers
and the IPv6 formatter. Returns the updated record on success (a TRUE
return), none on a FALSE return. The guint32 build of the obfuscated address
is modelled for the little-endian LP64 build the code targets. -/
def rspamd_url_is_ip
    (p4 : List Nat → Option (Nat × Nat × Nat × Nat))
    (p6 : List Nat → Option (List Nat))
    (n6 : List Nat → List Nat)
    (uri : RspamdUrl) : Option RspamdUrl :=
  let host := hostChars uri
  let hl := uri.hostlen
  let pStart := if byteAt host 0 = 91 ∧ byteAt host (hl - 1) = 93 then 1 else 0
  let endPos := dropTrailingDots host hl pStart
  if endPos - pStart > 46 then none
  else
    let buf := (host.take endPos).drop pStart
    match p4 buf with
    | some (b0, b1, b2, b3) =>
      let h := inet_ntop4 b0 b1 b2 b3
      some { uri with hostBuf := some h, hostlen := h.length,
                      tldOff := 0, tldlen := h.length, flags := uri.flags ||| 2 }
    | none =>
      match p6 buf with
      | some b16 =>
        let h := n6 b16
        let hlen := (h.takeWhile (fun c => c ≠ 0)).length
        some { uri with hostBuf := some h, hostlen := hlen,
                        tldOff := 0, tldlen := hlen, flags := uri.flags ||| 2 }
      | none =>
        match isIpLoop host endPos (endPos + 2) pStart
            ⟨0, 0, 0, 0, 0, pStart, true⟩ with
        | none => none
        | some a =>
          let n := (a.n ||| a.t <<< (8 * (4 - a.i))) % 2 ^ 32
          if a.check ∧ a.dots ≤ 4 then
            let h := inet_ntop4 (n &&& 255) ((n >>> 8) &&& 255)
                       ((n >>> 16) &&& 255) ((n >>> 24) &&& 255)
            some { uri with hostBuf := some h, hostlen := h.length,
                            tldOff := 0, tldlen := h.length, flags := uri.flags ||| 6 }
          else none

/-! ## rspamd_url_parse -/

/-- enum uri_errno of url.h, without OK. -/
inductive UriErr where
  | empty | invalidProtocol | invalidPort | badEncoding | badFormat
  | tldMissing | hostMissing
deriving Repr, DecidableEq

/-- Result of rspamd_url_parse. -/
inductive UriResult where
  | ok (u : RspamdUrl)
  | err (e : UriErr)
deriving Repr, DecidableEq

/-- The decode-and-normalize phase of rspamd_url_parse: in-place decoding of
each component with shifting, lowercasing of the scheme and the host, and
protocol identification. -/
def decodePhase (uri0 : RspamdUrl) : RspamdUrl :=
  let uri := decodeAndShift uri0 .schema
  let uri := decodeAndShift uri .host
  let uri := if uri.datalen ≠ 0 then decodeAndShift uri .path else uri
  let uri := if uri.querylen ≠ 0 then decodeAndShift uri .query else uri
  let uri := if uri.fragmentlen ≠ 0 then decodeAndShift uri .fragment else uri
  let uri := { uri with string := lcFirst uri.protocollen uri.string }
  let uri := { uri with string := lcRegion uri.string uri.hostOff uri.hostlen }
  { uri with protocol := protocolLookup uri }

/-- The TLD classification tail of rspamd_url_parse: the trie scan over the
host and, on a miss, the numeric-host fallback, then the protocol check. -/
def classifyTail (pats : List UrlMatcher) (uri : RspamdUrl) : UriResult :=
  let scan := acism_lookup pats (hostChars uri) (rspamd_tld_trie_callback pats) uri
  if scan.2 then
    if scan.1.protocol = 5 then .err .invalidProtocol else .ok scan.1
  else
    match rspamd_url_is_ip inet_pton4 inet_pton6 inet_ntop6 scan.1 with
    | some uri2 =>
      if uri2.protocol = 5 then .err .invalidProtocol else .ok uri2
    | none => .err .tldMissing

/-- Everything rspamd_url_parse does after the state-machine parse, on the
parse buffer str of length len and the parsed field table u: field
extraction, the missing-host check, the decode phase and the TLD
classification tail. -/
def assembleUrl (pats : List UrlMatcher) (str : List Nat) (len : Nat)
    (u : HttpUrl) : UriResult :=
  let uri := assembleFields str len u
  if uri.hostlen = 0 then .err .hostMissing
  else classifyTail pats (decodePhase uri)

/-- The mailto: prefix bytes. -/
def mailtoColon : List Nat := [109, 97, 105, 108, 116, 111, 58]

/-- rspamd_url_parse from url.c on an input byte slice (the C function also
receives the slice length; reads past the slice see the NUL terminator).
Routing: inputs longer than the mailto: prefix that start with it case
insensitively go to the strict mailto parser, everything else to the strict
web parser. When the parse consumed a proper nonempty prefix, the prefix is
copied to a fresh buffer and the record is built from the copy alone. -/
def rspamd_url_parse (pats : List UrlMatcher) (hi : Nat → Bool)
    (s : List Nat) : UriResult :=
  if byteAt s 0 = 0 then .err .empty
  else
    let pr :=
      if s.length > 7 ∧ g_ascii_strncasecmp s mailtoColon 0 7 = 0 then
        rspamd_mailto_parse true s
      else rspamd_web_parse true hi s
    if pr.ret ≠ 0 then .err .badFormat
    else if pr.endPos > 0 ∧ pr.endPos ≠ s.length then
      assembleUrl pats (s.take pr.endPos) pr.endPos pr.u
    else assembleUrl pats s s.length pr.u

/-- The port of an accepted parse. -/
def okPort : UriResult → Option Nat
  | .ok u => some u.port
  | .err _ => none

/-- The host bytes of an accepted parse. -/
def okHost : UriResult → Option (List Nat)
  | .ok u => some (hostChars u)
  | .err _ => none

/-- The flag set of an accepted parse. -/
def okFlags : UriResult → Option Nat
  | .ok u => some u.flags
  | .err _ => none

/-- The urllen of an accepted parse. -/
def okUrllen : UriResult → Option Nat
  | .ok u => some u.urllen
  | .err _ => none

/-! ## Matcher start probes -/

/-- url_web_start from url.c: the start probe of the web matcher family on a
hit at offset pos of the scanned text. -/
def url_web_start (text : List Nat) (pos : Nat) : Bool :=
  if pos > 0 ∧ (g_ascii_strncasecmp (text.drop pos) [119, 119, 119] 0 3 = 0 ∨
      g_ascii_strncasecmp (text.drop pos) [102, 116, 112] 0 3 = 0) then
    if ¬ is_url_start (byteAt text (pos - 1)) ∧ ¬ g_ascii_isspace (byteAt text (pos - 1)) then
      false
    else if byteAt text pos = 46 then false
    else true
  else if byteAt text pos = 46 then false
  else true

/-! ## Spec-side predicates and helpers used by the theorems -/

/-- The machine run underlying rspamd_mailto_parse. -/
def mailtoRun (s : List Nat) : MState × MExit :=
  mailtoLoop s (2 * s.length + 16) ⟨0, 0, .mailto, emptyHttpUrl⟩

/-- The machine run underlying rspamd_web_parse. -/
def webRun (strict : Bool) (hi : Nat → Bool) (s : List Nat) : WState × WExit :=
  webLoop strict hi s (8 * s.length + 32) ⟨0, 0, 0, false, 0, .protocol, emptyHttpUrl⟩

/-- Accepting terminal configurations of the mailto machine: the run reached
the end of the input in the domain state with a nonempty domain, or in the
query state. -/
def mailtoAccepting (r : MState × MExit) : Prop :=
  r.2 = .eoi ∧ (r.1.st = .domain ∧ r.1.p ≠ r.1.c ∨ r.1.st = .query)

/-- Accepting terminal configurations of the web machine: the run ended at
the end of the input or at an accepted early stop, in a state whose pending
component is valid (nonempty domain; port value in range; a closed IPv6
bracket; or any of the suffix-slash, path, query, fragment states). -/
def webAccepting (s : List Nat) (r : WState × WExit) : Prop :=
  (r.2 = .eoi ∨ r.2 = .toSet) ∧
  (match r.1.st with
   | .domain => r.1.p ≠ r.1.c
   | .port =>
     strtoulSigned (s.drop r.1.c) ≠ 0 ∧ ¬ strtoulSigned (s.drop r.1.c) > 65535
   | .suffix_slash | .path | .query | .part => True
   | .ipv6 => r.1.t = 93
   | _ => False)

/-- Position of the nd-th label separator strictly left of offset i, walking
backward, as the spec describes the tld walk. -/
def nthDotLeft (host : List Nat) : Nat → Nat → Option Nat
  | 0, _ => none
  | j + 1, nd =>
    if byteAt host j = 46 then
      if nd = 1 then some j else nthDotLeft host j (nd - 1)
    else nthDotLeft host j nd

/-- A concrete instantiation of the non-ASCII alphanumeric classification
(irrelevant for ASCII inputs). -/
def hiZero : Nat → Bool := fun _ => false

/-- Does the text at offset pos start, case insensitively, with www or ftp
(the guard of url_web_start). -/
def wwwFtpAt (text : List Nat) (pos : Nat) : Prop :=
  g_ascii_strncasecmp (text.drop pos) [119, 119, 119] 0 3 = 0 ∨
    g_ascii_strncasecmp (text.drop pos) [102, 116, 112] 0 3 = 0

/-! ## Invariants of the parsing machines, for the userinfo and scheme
analysis -/

/-- A byte the protocol state of the web machine consumes: ASCII
alphanumeric, plus, or minus. -/
def protoChar (c : Nat) : Prop := g_ascii_isalnum c = true ∨ c = 43 ∨ c = 45

/-- What rspamd_mailto_parse guarantees about an emitted userinfo field:
nonempty, terminated by the at sign, all bytes mailsafe. -/
def uinfoOk (s : List Nat) (fd : FieldData) : Prop :=
  0 < fd.len ∧ byteAt s (fd.off + fd.len) = 64 ∧
    ∀ i < fd.len, is_mailsafe (byteAt s (fd.off + i)) = true

/-- Invariant of the mailto machine: in the user state the component bytes
consumed so far are all mailsafe; in every state past the at sign the
userinfo field is set and nonempty; and an emitted userinfo field always
satisfies uinfoOk. -/
def mailtoInv (s : List Nat) (w : MState) : Prop :=
  (w.st = .user → w.c ≤ w.p ∧
    ∀ i, w.c ≤ i → i < w.p → is_mailsafe (byteAt s i) = true) ∧
  ((w.st = .at ∨ w.st = .domain ∨ w.st = .suffix_question ∨ w.st = .query) →
    ∃ fd, w.u.userinfo = some fd ∧ 0 < fd.len) ∧
  (∀ fd, w.u.userinfo = some fd → uinfoOk s fd)

/-- What the web machine guarantees about an emitted schema field: it starts
at offset 0, is followed by a colon inside the input, and consists of
protocol characters. -/
def schemaOk (s : List Nat) (fd : FieldData) : Prop :=
  fd.off = 0 ∧ fd.len < s.length ∧ byteAt s fd.len = 58 ∧
    ∀ i < fd.len, protoChar (byteAt s i)

/-- Per-state bookkeeping of the web machine once the schema field is
emitted, over the bound b (the offset of the byte after the schema colon):
which fields are still unset, and how the cursor, the component start and
the slash position relate to b and to the offsets of the emitted fields. -/
def webStClause (b : Nat) (w : WState) : Prop :=
  match w.st with
  | .protocol => False
  | .semicolon | .slash | .slash_slash =>
    w.u.host = none ∧ w.u.path = none ∧ w.u.query = none ∧ w.u.fragment = none
  | .user | .password_start | .password | .at =>
    w.u.host = none ∧ w.u.path = none ∧ w.u.query = none ∧ w.u.fragment = none ∧
      b ≤ w.slashPos ∧ w.slashPos ≤ w.p
  | .domain =>
    w.u.host = none ∧ w.u.path = none ∧ w.u.query = none ∧ w.u.fragment = none ∧
      b ≤ w.slashPos ∧ w.slashPos ≤ w.p ∧ b ≤ w.c ∧ w.c ≤ w.p
  | .port_password =>
    w.u.host = none ∧ w.u.path = none ∧ w.u.query = none ∧ w.u.fragment = none ∧
      b ≤ w.slashPos ∧ w.slashPos + 1 ≤ w.p
  | .ipv6 =>
    w.u.path = none ∧ w.u.query = none ∧ w.u.fragment = none ∧
      (∀ fd, w.u.host = some fd → b ≤ fd.off) ∧ b ≤ w.c ∧ w.c ≤ w.p
  | .port =>
    w.u.path = none ∧ w.u.query = none ∧ w.u.fragment = none ∧
      (∀ fd, w.u.host = some fd → b ≤ fd.off ∧ fd.off + fd.len ≤ w.c) ∧ w.c ≤ w.p
  | .suffix_slash =>
    w.u.path = none ∧ w.u.query = none ∧ w.u.fragment = none ∧
      (∀ fd, w.u.host = some fd → b ≤ fd.off ∧ fd.off + fd.len ≤ w.p)
  | .path =>
    w.u.path = none ∧ w.u.query = none ∧ w.u.fragment = none ∧
      (∀ fd, w.u.host = some fd → b ≤ fd.off ∧ fd.off + fd.len ≤ w.c) ∧ w.c ≤ w.p
  | .query =>
    w.u.query = none ∧ w.u.fragment = none ∧
      (∀ fd, w.u.host = some fd → b ≤ fd.off ∧ fd.off + fd.len ≤ w.c) ∧
      (∀ fd, w.u.path = some fd →
        (∀ fh, w.u.host = some fh → fh.off + fh.len ≤ fd.off) ∧
          fd.off + fd.len ≤ w.c) ∧
      w.c ≤ w.p
  | .part =>
    w.u.fragment = none ∧
      (∀ fd, w.u.host = some fd → b ≤ fd.off ∧ fd.off + fd.len ≤ w.c) ∧
      (∀ fd, w.u.path = some fd →
        (∀ fh, w.u.host = some fh → fh.off + fh.len ≤ fd.off) ∧
          fd.off + fd.len ≤ w.c) ∧
      (∀ fd, w.u.query = some fd →
        (∀ fh, w.u.host = some fh → fh.off + fh.len ≤ fd.off) ∧
        (∀ fp, w.u.path = some fp → fp.off + fp.len ≤ fd.off) ∧
          fd.off + fd.len ≤ w.c) ∧
      w.c ≤ w.p

/-- The invariant of the strict web machine: before the schema is emitted
the machine is still in the protocol state reading protocol characters;
afterwards the schema satisfies schemaOk, the cursor stays past the colon,
and the per-state bookkeeping holds. -/
def webInv (s : List Nat) (w : WState) : Prop :=
  match w.u.schema with
  | none =>
    w.st = .protocol ∧ w.c = 0 ∧ w.u = emptyHttpUrl ∧
      ∀ i < w.p, protoChar (byteAt s i)
  | some fd => schemaOk s fd ∧ fd.len + 1 ≤ w.p ∧ webStClause (fd.len + 1) w

/-- The invariant transported to a web step outcome: it holds for a
continuation and for a goto set, and nothing is claimed for a goto out. -/
def wstepInv (s : List Nat) (r : WStep) : Prop :=
  match r with
  | .cont w2 => webInv s w2
  | .set w2 => webInv s w2
  | .out _ => True

/-- Field layout facts of an accepted strict web parse: the schema is
emitted and well formed, the final cursor lies past the schema colon, the
host lies past the colon, and path, query and fragment lie past the end of
every component emitted before them. -/
def webFinalFacts (s : List Nat) (p : Nat) (u : HttpUrl) : Prop :=
  ∃ fd, u.schema = some fd ∧ schemaOk s fd ∧ fd.len + 1 ≤ p ∧
    (∀ fh, u.host = some fh → fd.len + 1 ≤ fh.off) ∧
    (∀ fh fp, u.host = some fh → u.path = some fp → fh.off + fh.len ≤ fp.off) ∧
    (∀ fh fq, u.host = some fh → u.query = some fq → fh.off + fh.len ≤ fq.off) ∧
    (∀ fp fq, u.path = some fp → u.query = some fq → fp.off + fp.len ≤ fq.off) ∧
    (∀ fh ff, u.host = some fh → u.fragment = some ff → fh.off + fh.len ≤ ff.off) ∧
    (∀ fp ff, u.path = some fp → u.fragment = some ff → fp.off + fp.len ≤ ff.off) ∧
    (∀ fq ff, u.query = some fq → u.fragment = some ff → fq.off + fq.len ≤ ff.off)

/-- The record of an accepted parse, or the default record on an error. -/
def okUri : UriResult → RspamdUrl
  | .ok u => u
  | .err _ => default

/-! ## Theorems -/

/-- tldWalkSet only touches the tld fields. -/
theorem tldWalkSet_hostlen (h : List Nat) (ms nd : Nat) (u : RspamdUrl) :
    (tldWalkSet h ms nd u).hostlen = u.hostlen := by
  unfold tldWalkSet
  dsimp only
  split <;> rfl

/-- Characterization of rspamd_tld_trie_callback: acceptance is exactly a
match ending at the end of the host with a dot at the match start, or a
match ending one byte before the end; rejected hits leave the record
unchanged; the trailing dot, when present, is stripped by decrementing
hostlen. -/
theorem tldTrieCallback_accept_iff (m : UrlMatcher) (textpos : Nat)
    (url : RspamdUrl) :
    ((tldUrlCallbackCore m textpos url).2 = true ↔
      (textpos = url.hostlen ∧
        byteAt (hostChars url) (textpos - m.pattern.length) = 46) ∨
      textpos + 1 = url.hostlen) ∧
    ((tldUrlCallbackCore m textpos url).2 = false →
      (tldUrlCallbackCore m textpos url).1 = url) ∧
    ((tldUrlCallbackCore m textpos url).2 = true →
      (tldUrlCallbackCore m textpos url).1.hostlen =
        (if textpos + 1 = url.hostlen ∧ byteAt (hostChars url) textpos = 46
         then url.hostlen - 1 else url.hostlen)) := by
  by_cases hB : textpos = url.hostlen
  · subst hB
    by_cases hA : byteAt (hostChars url) (url.hostlen - m.pattern.length) = 46 <;>
      simp [tldUrlCallbackCore, tldWalkSet_hostlen, hA]
  · by_cases hB1 : textpos + 1 = url.hostlen
    · by_cases hC : byteAt (hostChars url) textpos = 46 <;>
        simp [tldUrlCallbackCore, tldWalkSet_hostlen, hB, hB1, hC]
    · simp [tldUrlCallbackCore, tldWalkSet_hostlen, hB, hB1]

/-- tldFindSet only touches the out field. -/
theorem tldFindSet_len (ms nd : Nat) (cb : FindTldState) :
    (tldFindSet ms nd cb).len = cb.len ∧ (tldFindSet ms nd cb).text = cb.text := by
  unfold tldFindSet
  dsimp only
  split <;> exact ⟨rfl, rfl⟩

/-- Characterization of rspamd_tld_trie_find_callback: acceptance is a match
ending at the end of the range with a dot at the match start, or a match
ending one byte before the end (with no dot requirement); rejection leaves
the state unchanged; the range length is never shortened. -/
theorem tldFindCallback_accept_iff (m : UrlMatcher) (textpos : Nat)
    (cb : FindTldState) :
    ((tldFindCallbackCore m textpos cb).2 = true ↔
      (textpos = cb.len ∧ byteAt cb.text (textpos - m.pattern.length) = 46) ∨
      textpos + 1 = cb.len) ∧
    ((tldFindCallbackCore m textpos cb).2 = false →
      (tldFindCallbackCore m textpos cb).1 = cb) ∧
    ((tldFindCallbackCore m textpos cb).2 = true →
      (tldFindCallbackCore m textpos cb).1.len = cb.len) := by
  by_cases hB : textpos = cb.len
  · subst hB
    by_cases hA : byteAt cb.text (cb.len - m.pattern.length) = 46 <;>
      simp [tldFindCallbackCore, tldFindSet_len, hA]
  · by_cases hB1 : textpos + 1 = cb.len <;>
      simp [tldFindCallbackCore, tldFindSet_len, hB, hB1]

/-- C1: during TLD classification, rspamd_tld_trie_callback accepts more
hits than the claim states: a hit is accepted when the matched pattern ends
exactly at the end of the host (with the leading dot of the pattern at the
match start), or when it ends at the position immediately before the last
byte of the host, whether or not that last byte is a dot; the trailing
byte is stripped (hostlen decremented) only when it is a dot. Any other hit
is rejected with callback result 0, leaving the record unchanged, and
scanning continues. rspamd_tld_trie_find_callback behaves the same except
that it never strips the trailing byte. -/
theorem c1_tld_callback_acceptance :
    (∀ (pats : List UrlMatcher) (strnum textpos : Nat) (url : RspamdUrl),
      ((rspamd_tld_trie_callback pats strnum textpos url).2 = true ↔
        (textpos = url.hostlen ∧
          byteAt (hostChars url)
            (textpos - (pats.getD strnum default).pattern.length) = 46) ∨
        textpos + 1 = url.hostlen) ∧
      ((rspamd_tld_trie_callback pats strnum textpos url).2 = false →
        (rspamd_tld_trie_callback pats strnum textpos url).1 = url) ∧
      ((rspamd_tld_trie_callback pats strnum textpos url).2 = true →
        (rspamd_tld_trie_callback pats strnum textpos url).1.hostlen =
          (if textpos + 1 = url.hostlen ∧ byteAt (hostChars url) textpos = 46
           then url.hostlen - 1 else url.hostlen))) ∧
    (∀ (pats : List UrlMatcher) (strnum textpos : Nat) (cb : FindTldState),
      ((rspamd_tld_trie_find_callback pats strnum textpos cb).2 = true ↔
        (textpos = cb.len ∧
          byteAt cb.text
            (textpos - (pats.getD strnum default).pattern.length) = 46) ∨
        textpos + 1 = cb.len) ∧
      ((rspamd_tld_trie_find_callback pats strnum textpos cb).2 = false →
        (rspamd_tld_trie_find_callback pats strnum textpos cb).1 = cb) ∧
      ((rspamd_tld_trie_find_callback pats strnum textpos cb).2 = true →
        (rspamd_tld_trie_find_callback pats strnum textpos cb).1.len = cb.len)) :=
  ⟨fun pats strnum textpos url =>
      tldTrieCallback_accept_iff (pats.getD strnum default) textpos url,
    fun pats strnum textpos cb =>
      tldFindCallback_accept_iff (pats.getD strnum default) textpos cb⟩

/-- C1 counterexample: on host a.comx (hostlen 6) the pattern .com reported
with end offset 5 ends neither at the end of the host nor before a trailing
dot (the byte after the match is x), yet the callback accepts it (returns 1
and stops the scan), contradicting the claim as stated. -/
theorem c1_counterexample :
    (rspamd_tld_trie_callback [⟨[46, 99, 111, 109], 3⟩] 0 5
        { string := [97, 46, 99, 111, 109, 120], hostOff := 0, hostlen := 6 }).2 = true ∧
    ¬ ((5 : Nat) = 6 ∨
        byteAt (hostChars ({ string := [97, 46, 99, 111, 109, 120], hostOff := 0, hostlen := 6 } : RspamdUrl)) 5 = 46) := by
  constructor
  · decide
  · decide

/-- The backward walk agrees with the spec-side separator search: when the
nd-th dot left of the match start exists at position j, the walk ends with
all separators found and the running answer one past that dot. -/
theorem dotWalk_of_nthDot (host : List Nat) :
    ∀ i nd pos j, 1 ≤ nd → nthDotLeft host i nd = some j →
      dotWalk host i nd pos = (0, j + 1, j) := by
  intro i
  induction i with
  | zero =>
    intro nd pos j h1 h2
    simp [nthDotLeft] at h2
  | succ k ih =>
    intro nd pos j h1 h2
    obtain ⟨nd2, rfl⟩ : ∃ nd2, nd = nd2 + 1 := ⟨nd - 1, by omega⟩
    by_cases hd : byteAt host k = 46
    · simp only [nthDotLeft, hd, if_true] at h2
      by_cases h1eq : nd2 = 0
      · subst h1eq
        simp at h2
        subst h2
        simp [dotWalk, hd]
      · have : ¬ (nd2 + 1 = 1) := by omega
        rw [if_neg this] at h2
        have := ih (nd2 + 1 - 1) (k + 1) j (by omega) (by simpa using h2)
        simp [dotWalk, hd]
        simpa using this
    · simp only [nthDotLeft, hd, if_false] at h2
      have := ih (nd2 + 1) pos j (by omega) h2
      simp [dotWalk, hd]
      simpa using this

/-- C2: upon acceptance of a TLD pattern hit, the classifier walks backward
from the match start counting label separators, two for a STAR_MATCH pattern
and one for a plain pattern; when the wanted separator exists at position j,
tld is set to the sub-range from the byte after the separator to the end of
the (possibly dot-stripped) host. -/
theorem c2_tld_walk (pats : List UrlMatcher) (strnum textpos : Nat)
    (url : RspamdUrl) (j : Nat)
    (hacc : (rspamd_tld_trie_callback pats strnum textpos url).2 = true)
    (hdot : nthDotLeft (hostChars url)
        (textpos - (pats.getD strnum default).pattern.length)
        (if (pats.getD strnum default).flags &&& 4 = 0 then 1 else 2) = some j) :
    (rspamd_tld_trie_callback pats strnum textpos url).1.tldOff = j + 1 ∧
    (rspamd_tld_trie_callback pats strnum textpos url).1.tldlen =
      (rspamd_tld_trie_callback pats strnum textpos url).1.hostlen - (j + 1) := by
  simp only [rspamd_tld_trie_callback] at hacc ⊢
  set m := pats.getD strnum default with hm
  have hw := dotWalk_of_nthDot (hostChars url) (textpos - m.pattern.length)
    (if m.flags &&& 4 = 0 then 1 else 2) 0 j (by split <;> omega) hdot
  by_cases hB : textpos = url.hostlen
  · subst hB
    by_cases hA : byteAt (hostChars url) (url.hostlen - m.pattern.length) = 46
    · simp [tldUrlCallbackCore, tldWalkSet, hA, hw]
    · simp [tldUrlCallbackCore, hA] at hacc
  · by_cases hB1 : textpos + 1 = url.hostlen
    · by_cases hC : byteAt (hostChars url) textpos = 46 <;>
        simp [tldUrlCallbackCore, tldWalkSet, hB, hB1, hC, hw]
    · simp [tldUrlCallbackCore, hB, hB1] at hacc

/-- C2 witness: on host www.example.com with the plain pattern .com matching
at the end, one dot is found at position 3 and tld becomes the range from
offset 4 to the end of the host. -/
theorem c2_tld_walk_witness :
    (rspamd_tld_trie_callback [⟨[46, 99, 111, 109], 3⟩] 0 15
        { string := [119, 119, 119, 46, 101, 120, 97, 109, 112, 108, 101, 46, 99, 111, 109],
          hostOff := 0, hostlen := 15 }).1.tldOff = 3 + 1 ∧
    (rspamd_tld_trie_callback [⟨[46, 99, 111, 109], 3⟩] 0 15
        { string := [119, 119, 119, 46, 101, 120, 97, 109, 112, 108, 101, 46, 99, 111, 109],
          hostOff := 0, hostlen := 15 }).1.tldlen =
      (rspamd_tld_trie_callback [⟨[46, 99, 111, 109], 3⟩] 0 15
        { string := [119, 119, 119, 46, 101, 120, 97, 109, 112, 108, 101, 46, 99, 111, 109],
          hostOff := 0, hostlen := 15 }).1.hostlen - (3 + 1) :=
  c2_tld_walk [⟨[46, 99, 111, 109], 3⟩] 0 15
    { string := [119, 119, 119, 46, 101, 120, 97, 109, 112, 108, 101, 46, 99, 111, 109],
      hostOff := 0, hostlen := 15 } 3 (by decide) (by decide)

/-- C8: the start probe of the web matcher family checks the preceding byte
only when the matched text itself starts, case insensitively, with www or
ftp; for every other web pattern (http://, https://, ...) the probe succeeds
regardless of the preceding byte. In addition a match starting with a dot is
rejected. Acceptance is exactly: the byte at the match is not a dot, and
(the match is at the buffer start, or the matched text does not start with
www/ftp, or the preceding byte is a URL starter or whitespace). -/
theorem c8_web_start_characterization (text : List Nat) (pos : Nat) :
    url_web_start text pos = true ↔
      (byteAt text pos ≠ 46 ∧
        (pos = 0 ∨ ¬ wwwFtpAt text pos ∨
          is_url_start (byteAt text (pos - 1)) = true ∨
          g_ascii_isspace (byteAt text (pos - 1)) = true)) := by
  by_cases hp : pos > 0
  · by_cases hw : wwwFtpAt text pos
    · by_cases hs : is_url_start (byteAt text (pos - 1)) = true ∨
          g_ascii_isspace (byteAt text (pos - 1)) = true
      · rcases hs with hs | hs <;>
          simp_all [url_web_start, wwwFtpAt, hp, hs] <;> tauto
      · push_neg at hs
        simp_all [url_web_start, wwwFtpAt, hp] <;> first | tauto | omega
    · simp_all [url_web_start, wwwFtpAt, hp] <;> tauto
  · have hp0 : pos = 0 := by omega
    subst hp0
    simp [url_web_start, wwwFtpAt]

/-- C8 counterexample: the pattern http:// matched at offset 1 of
xhttp://a.com is accepted by url_web_start although the match is not at the
buffer start and the preceding byte x is neither a URL starter nor
whitespace, contradicting the claim as stated. -/
theorem c8_counterexample :
    url_web_start [120, 104, 116, 116, 112, 58, 47, 47, 97, 46, 99, 111, 109] 1 = true ∧
    ¬ ((1 : Nat) = 0 ∨
        is_url_start (byteAt [120, 104, 116, 116, 112, 58, 47, 47, 97, 46, 99, 111, 109] 0) = true ∨
        g_ascii_isspace (byteAt [120, 104, 116, 116, 112, 58, 47, 47, 97, 46, 99, 111, 109] 0) = true) := by
  constructor
  · decide
  · decide

/-- C7: the mailto parser in lenient mode reports success unconditionally,
whether or not anything usable was extracted; the strict mailto parser and
the web parser (in either mode) report success exactly when the machine run
ends, at end-of-input or at an accepted early stop, in an accepting terminal
configuration. -/
theorem c7_parser_modes :
    (∀ s, (rspamd_mailto_parse false s).ret = 0) ∧
    (∀ s, ((rspamd_mailto_parse true s).ret = 0 ↔ mailtoAccepting (mailtoRun s))) ∧
    (∀ strict hi s,
      ((rspamd_web_parse strict hi s).ret = 0 ↔ webAccepting s (webRun strict hi s))) := by
  refine ⟨fun s => ?_, fun s => ?_, fun strict hi s => ?_⟩
  · simp [rspamd_mailto_parse]
  · show (mailtoFinish (mailtoRun s).1 (mailtoRun s).2).2 = 0 ↔ _
    rcases hr : mailtoRun s with ⟨w, ex⟩
    cases ex <;> cases hst : w.st <;>
      simp [mailtoFinish, mailtoAccepting, hst] <;>
      split_ifs <;> simp_all
  · show (webFinish s (webRun strict hi s).1 (webRun strict hi s).2).2 = 0 ↔ _
    rcases hr : webRun strict hi s with ⟨w, ex⟩
    cases ex <;> cases hst : w.st <;>
      simp [webFinish, webAccepting, hst] <;>
      split_ifs <;> simp_all <;> omega

/-- C7 counterexample: on the input x the lenient mailto parser reports
success although nothing at all was extracted (no field is set), refuting
the claim that lenient-mode success at end-of-input happens only when a
usable prefix was extracted. -/
theorem c7_counterexample :
    (rspamd_mailto_parse false [120]).ret = 0 ∧
    (rspamd_mailto_parse false [120]).u = emptyHttpUrl ∧
    (rspamd_mailto_parse false [120]).endPos = 1 := by
  refine ⟨by decide, by decide, by decide⟩

/-- assembleUrl can fail with a missing host, a missing TLD or an unknown
protocol, but never with EMPTY. -/
theorem classifyTail_ne_empty (pats : List UrlMatcher) (uri : RspamdUrl) :
    classifyTail pats uri ≠ .err .empty := by
  simp only [classifyTail]
  split
  · split <;> simp
  · split
    · split <;> simp
    · simp

/-- assembleUrl can fail with a missing host, a missing TLD or an unknown
protocol, but never with EMPTY. -/
theorem assembleUrl_ne_empty (pats : List UrlMatcher) (str : List Nat)
    (len : Nat) (u : HttpUrl) : assembleUrl pats str len u ≠ .err .empty := by
  simp only [assembleUrl]
  split
  · simp
  · exact classifyTail_ne_empty _ _

/-- C9: rspamd_url_parse returns EMPTY exactly when the first byte of the
input buffer is the NUL terminator, that is, when the input is empty or its
first byte is a NUL; a longer input starting with a NUL byte also yields
EMPTY. -/
theorem c9_empty_iff (pats : List UrlMatcher) (hi : Nat → Bool) (s : List Nat) :
    rspamd_url_parse pats hi s = .err .empty ↔ byteAt s 0 = 0 := by
  unfold rspamd_url_parse
  by_cases h : byteAt s 0 = 0
  · simp [h]
  · rw [if_neg h]
    constructor
    · intro hEq
      split at hEq <;> dsimp only at hEq <;> split at hEq <;>
        first
          | (split at hEq <;> exact absurd hEq (assembleUrl_ne_empty _ _ _ _))
          | exact absurd hEq (by simp)
    · intro h0
      exact absurd h0 h

/-- C9 counterexample: the two-byte input consisting of a NUL byte followed
by the letter a is reported EMPTY although it is not zero bytes long. -/
theorem c9_counterexample :
    rspamd_url_parse scenarioMatchers hiZero [0, 97] = .err .empty ∧
    ([0, 97] : List Nat).length = 2 := by
  refine ⟨by decide, by decide⟩

/-- Generic preservation through one report position of the scan. -/
theorem acismAtPos_keeps {σ : Type} (P : σ → Prop) (text : List Nat)
    (cb : Nat → Nat → σ → σ × Bool) (endpos : Nat)
    (hcb : ∀ i j x, P x → P (cb i j x).1) :
    ∀ (L : List (Nat × UrlMatcher)) (st : σ), P st →
      P (acismAtPos text cb endpos L st).1 := by
  intro L
  induction L with
  | nil => intro st h; exact h
  | cons hd tl ih =>
    intro st h
    rcases hd with ⟨i, m⟩
    simp only [acismAtPos]
    split
    · split
      · exact hcb _ _ _ h
      · exact ih _ (hcb _ _ _ h)
    · exact ih _ h

/-- Generic preservation through the whole scan loop. -/
theorem acismScanGo_keeps {σ : Type} (P : σ → Prop)
    (pats : List (Nat × UrlMatcher)) (text : List Nat)
    (cb : Nat → Nat → σ → σ × Bool)
    (hcb : ∀ i j x, P x → P (cb i j x).1) :
    ∀ (rem endpos : Nat) (st : σ), P st →
      P (acismScanGo pats text cb endpos rem st).1 := by
  intro rem
  induction rem with
  | zero => intro endpos st h; exact h
  | succ k ih =>
    intro endpos st h
    simp only [acismScanGo]
    split
    · exact acismAtPos_keeps P text cb endpos hcb pats st h
    · exact ih _ _ (acismAtPos_keeps P text cb endpos hcb pats st h)

/-- Generic preservation through acism_lookup. -/
theorem acism_lookup_keeps {σ : Type} (P : σ → Prop) (pats : List UrlMatcher)
    (text : List Nat) (cb : Nat → Nat → σ → σ × Bool)
    (hcb : ∀ i j x, P x → P (cb i j x).1) (st : σ) (h : P st) :
    P (acism_lookup pats text cb st).1 :=
  acismScanGo_keeps P _ text cb hcb _ _ st h

/-- tldWalkSet only changes the tld fields. -/
theorem tldWalkSet_keeps (h : List Nat) (ms nd : Nat) (u : RspamdUrl) :
    (tldWalkSet h ms nd u).urllen = u.urllen ∧
    (tldWalkSet h ms nd u).userlen = u.userlen ∧
    (tldWalkSet h ms nd u).protocol = u.protocol ∧
    (tldWalkSet h ms nd u).port = u.port ∧
    (tldWalkSet h ms nd u).protocollen = u.protocollen := by
  simp only [tldWalkSet]
  split <;> simp

/-- The tld trie callback only changes hostlen and the tld fields. -/
theorem tldUrlCallbackCore_keeps (m : UrlMatcher) (t : Nat) (url : RspamdUrl) :
    (tldUrlCallbackCore m t url).1.urllen = url.urllen ∧
    (tldUrlCallbackCore m t url).1.userlen = url.userlen ∧
    (tldUrlCallbackCore m t url).1.protocol = url.protocol ∧
    (tldUrlCallbackCore m t url).1.port = url.port ∧
    (tldUrlCallbackCore m t url).1.protocollen = url.protocollen := by
  simp only [tldUrlCallbackCore]
  split
  · simp
  · rename_i u2 heq
    have hu2 : u2.urllen = url.urllen ∧ u2.userlen = url.userlen ∧
        u2.protocol = url.protocol ∧ u2.port = url.port ∧
        u2.protocollen = url.protocollen := by
      split at heq
      · split at heq
        · split at heq
          · cases heq; simp
          · cases heq; simp
        · cases heq
      · cases heq; simp
    have hko := tldWalkSet_keeps (hostChars url) (t - m.pattern.length)
      (if m.flags &&& 4 = 0 then 1 else 2) u2
    exact ⟨hko.1.trans hu2.1, hko.2.1.trans hu2.2.1, hko.2.2.1.trans hu2.2.2.1,
      hko.2.2.2.1.trans hu2.2.2.2.1, hko.2.2.2.2.trans hu2.2.2.2.2⟩

/-- rspamd_url_is_ip only changes the host, tld and flag fields. -/
theorem rspamd_url_is_ip_keeps
    (p4 : List Nat → Option (Nat × Nat × Nat × Nat))
    (p6 : List Nat → Option (List Nat)) (n6 : List Nat → List Nat)
    (uri uri2 : RspamdUrl) (h : rspamd_url_is_ip p4 p6 n6 uri = some uri2) :
    uri2.urllen = uri.urllen ∧ uri2.userlen = uri.userlen ∧
    uri2.protocol = uri.protocol ∧ uri2.port = uri.port ∧
    uri2.protocollen = uri.protocollen := by
  unfold rspamd_url_is_ip at h
  dsimp only at h
  split at h <;>
    (split at h
     · exact Option.noConfusion h
     · split at h
       · rw [Option.some_inj] at h
         subst h
         simp
       · split at h
         · rw [Option.some_inj] at h
           subst h
           simp
         · split at h
           · exact Option.noConfusion h
           · split at h
             · rw [Option.some_inj] at h
               subst h
               simp
             · exact Option.noConfusion h)

/-- decodeAndShift changes neither urllen, userlen, protocol, port nor
(except for the schema field itself) protocollen. -/
theorem decodeAndShift_keeps (uri : RspamdUrl) (f : UField) :
    (decodeAndShift uri f).urllen = uri.urllen ∧
    (decodeAndShift uri f).userlen = uri.userlen ∧
    (decodeAndShift uri f).protocol = uri.protocol ∧
    (decodeAndShift uri f).port = uri.port := by
  cases f <;> simp only [decodeAndShift] <;> split <;> simp

/-- Projection forms of decodeAndShift_keeps. -/
theorem decodeAndShift_urllen (uri : RspamdUrl) (f : UField) :
    (decodeAndShift uri f).urllen = uri.urllen := (decodeAndShift_keeps uri f).1

theorem decodeAndShift_userlen (uri : RspamdUrl) (f : UField) :
    (decodeAndShift uri f).userlen = uri.userlen := (decodeAndShift_keeps uri f).2.1

theorem decodeAndShift_port (uri : RspamdUrl) (f : UField) :
    (decodeAndShift uri f).port = uri.port := (decodeAndShift_keeps uri f).2.2.2

/-- The decode phase changes neither urllen, userlen nor port. -/
theorem decodePhase_keeps (uri : RspamdUrl) :
    (decodePhase uri).urllen = uri.urllen ∧
    (decodePhase uri).userlen = uri.userlen ∧
    (decodePhase uri).port = uri.port := by
  simp only [decodePhase]
  split_ifs <;>
    simp [decodeAndShift_urllen, decodeAndShift_userlen, decodeAndShift_port]

/-- The record facts preserved by the TLD classification tail. -/
def Keeps4 (base u : RspamdUrl) : Prop :=
  u.urllen = base.urllen ∧ u.userlen = base.userlen ∧
    u.protocol = base.protocol ∧ u.port = base.port

/-- The url trie callback preserves the Keeps4 facts. -/
theorem tldCallback_keeps4 (pats : List UrlMatcher) (base : RspamdUrl)
    (i j : Nat) (x : RspamdUrl) (hx : Keeps4 base x) :
    Keeps4 base (rspamd_tld_trie_callback pats i j x).1 := by
  have hk := tldUrlCallbackCore_keeps (pats.getD i default) j x
  exact ⟨hk.1.trans hx.1, hk.2.1.trans hx.2.1, hk.2.2.1.trans hx.2.2.1,
    hk.2.2.2.1.trans hx.2.2.2⟩

/-- An accepted TLD classification preserves urllen, userlen, protocol and
port of its input record. -/
theorem classifyTail_ok_keeps (pats : List UrlMatcher) (uri uri2 : RspamdUrl)
    (h : classifyTail pats uri = .ok uri2) : Keeps4 uri uri2 := by
  unfold classifyTail at h
  dsimp only at h
  have hscan : Keeps4 uri
      (acism_lookup pats (hostChars uri) (rspamd_tld_trie_callback pats) uri).1 :=
    acism_lookup_keeps (Keeps4 uri) pats (hostChars uri)
      (rspamd_tld_trie_callback pats) (tldCallback_keeps4 pats uri)
      uri ⟨rfl, rfl, rfl, rfl⟩
  split at h
  · split at h
    · exact absurd h (by simp)
    · cases h
      exact hscan
  · split at h
    · split at h
      · exact absurd h (by simp)
      · cases h
        rename_i uri3 hip _
        have hk := rspamd_url_is_ip_keeps _ _ _ _ _ hip
        exact ⟨hk.1.trans hscan.1, hk.2.1.trans hscan.2.1,
          hk.2.2.1.trans hscan.2.2.1, hk.2.2.2.1.trans hscan.2.2.2⟩
    · exact absurd h (by simp)

/-- Facts about an accepted assembleUrl result: the record length is the
parse buffer length and the userinfo length survives the pipeline. -/
theorem assembleUrl_ok_facts (pats : List UrlMatcher) (str : List Nat)
    (len : Nat) (u : HttpUrl) (uri : RspamdUrl)
    (h : assembleUrl pats str len u = .ok uri) :
    uri.urllen = len ∧ uri.userlen = (assembleFields str len u).userlen := by
  simp only [assembleUrl] at h
  split at h
  · exact absurd h (by simp)
  · have hk := classifyTail_ok_keeps pats (decodePhase (assembleFields str len u)) uri h
    have hd := decodePhase_keeps (assembleFields str len u)
    exact ⟨hk.1.trans (hd.1.trans rfl), hk.2.1.trans hd.2.1⟩

/-- C10: when the strict web parser accepts after consuming only a proper
nonempty prefix of the input, rspamd_url_parse does not fail on the
unconsumed tail: it builds the record from a fresh copy of the consumed
prefix alone, and an accepted record covers exactly that prefix
(urllen is the consumed length). -/
theorem c10_trailing_bytes_dropped (pats : List UrlMatcher) (hi : Nat → Bool)
    (s : List Nat)
    (h0 : byteAt s 0 ≠ 0)
    (hroute : ¬ (s.length > 7 ∧ g_ascii_strncasecmp s mailtoColon 0 7 = 0))
    (hret : (rspamd_web_parse true hi s).ret = 0)
    (hpos : 0 < (rspamd_web_parse true hi s).endPos)
    (hlt : (rspamd_web_parse true hi s).endPos < s.length) :
    rspamd_url_parse pats hi s =
      assembleUrl pats (s.take (rspamd_web_parse true hi s).endPos)
        (rspamd_web_parse true hi s).endPos (rspamd_web_parse true hi s).u ∧
    ∀ uri, rspamd_url_parse pats hi s = .ok uri →
      uri.urllen = (rspamd_web_parse true hi s).endPos := by
  have hmain : rspamd_url_parse pats hi s =
      assembleUrl pats (s.take (rspamd_web_parse true hi s).endPos)
        (rspamd_web_parse true hi s).endPos (rspamd_web_parse true hi s).u := by
    unfold rspamd_url_parse
    rw [if_neg h0, if_neg hroute]
    dsimp only
    rw [if_neg (by simp [hret]), if_pos ⟨hpos, by omega⟩]
  refine ⟨hmain, fun uri hok => ?_⟩
  rw [hmain] at hok
  exact (assembleUrl_ok_facts _ _ _ _ _ hok).1

/-- C10 witness: on the input http://t.com/a)b the strict web parse stops
at the closing parenthesis (offset 14 of 16); the parse succeeds and the
record covers only the 14 consumed bytes. -/
theorem c10_trailing_bytes_dropped_witness :
    (rspamd_url_parse scenarioMatchers hiZero
        [104, 116, 116, 112, 58, 47, 47, 116, 46, 99, 111, 109, 47, 97, 41, 98] =
      assembleUrl scenarioMatchers
        (List.take (rspamd_web_parse true hiZero
            [104, 116, 116, 112, 58, 47, 47, 116, 46, 99, 111, 109, 47, 97, 41, 98]).endPos
          [104, 116, 116, 112, 58, 47, 47, 116, 46, 99, 111, 109, 47, 97, 41, 98])
        (rspamd_web_parse true hiZero
          [104, 116, 116, 112, 58, 47, 47, 116, 46, 99, 111, 109, 47, 97, 41, 98]).endPos
        (rspamd_web_parse true hiZero
          [104, 116, 116, 112, 58, 47, 47, 116, 46, 99, 111, 109, 47, 97, 41, 98]).u) ∧
    ∀ uri, rspamd_url_parse scenarioMatchers hiZero
        [104, 116, 116, 112, 58, 47, 47, 116, 46, 99, 111, 109, 47, 97, 41, 98] = .ok uri →
      uri.urllen = (rspamd_web_parse true hiZero
        [104, 116, 116, 112, 58, 47, 47, 116, 46, 99, 111, 109, 47, 97, 41, 98]).endPos :=
  c10_trailing_bytes_dropped scenarioMatchers hiZero
    [104, 116, 116, 112, 58, 47, 47, 116, 46, 99, 111, 109, 47, 97, 41, 98]
    (by decide) (by decide) (by decide) (by decide) (by decide)

/-- Setting a flag whose bit 1 is on makes bit 1 of the result on. -/
theorem or_flag_bit_two (x f : Nat) (hf : f.testBit 1 = true) :
    (x ||| f) &&& 2 ≠ 0 := by
  have h := Nat.and_two_pow (x ||| f) 1
  rw [Nat.testBit_or, hf] at h
  simp at h
  omega

/-- C3 (the failing input of the port-range check): the port component
9223372036854775808 of http://example.com:9223372036854775808/ has numeric
value 2 to the 63rd, far above 65535, so by the claim and the spec the parse
must fail with an invalid port; but glong pt = strtoul (...) reinterprets
the value as a negative signed long, the check pt == 0 || pt > 65535 passes,
and the URL is accepted with the truncated uint16 port 0. -/
theorem c3_port_overflow_accepted :
    (strtoul10 [57, 50, 50, 51, 51, 55, 50, 48, 51, 54, 56, 53, 52, 55, 55, 53, 56, 48, 56]).1 = 9223372036854775808 ∧
    (9223372036854775808 : Nat) > 65535 ∧
    okPort (rspamd_url_parse scenarioMatchers hiZero [104, 116, 116, 112, 58, 47, 47, 101, 120, 97, 109, 112, 108, 101, 46, 99, 111, 109, 58, 57, 50, 50, 51, 51, 55, 50, 48, 51, 54, 56, 53, 52, 55, 55, 53, 56, 48, 56, 47]) = some 0 := by
  refine ⟨by decide, by decide, by decide⟩

/-- C5: parsing http://0x7f.1/ yields an accepted URL whose host has been
rewritten to the canonical dotted quad 127.0.0.1 and whose flag set is
exactly NUMERIC_HOST ||| OBSCURED_HOST (2 ||| 4 = 6): the hex component 0x7f
fills the top octet and the final component 1 fills the remaining low-order
bytes, per inet_aton semantics. -/
theorem c5_obscured_numeric_host :
    okHost (rspamd_url_parse scenarioMatchers hiZero [104, 116, 116, 112, 58, 47, 47, 48, 120, 55, 102, 46, 49, 47]) = some [49, 50, 55, 46, 48, 46, 48, 46, 49] ∧
    okFlags (rspamd_url_parse scenarioMatchers hiZero [104, 116, 116, 112, 58, 47, 47, 48, 120, 55, 102, 46, 49, 47]) = some 6 ∧
    (6 : Nat) &&& 2 ≠ 0 ∧ (6 : Nat) &&& 4 ≠ 0 := by
  refine ⟨by decide, by decide, by decide, by decide⟩

/-- C4: whenever rspamd_url_is_ip succeeds (any branch of the numeric-host
decoder, for arbitrary libc address parsers), the produced record carries
the NUMERIC_HOST flag and its tld is the whole host: tld points at the host
(offset 0) and tldlen equals hostlen. -/
theorem c4_numeric_tld_is_host
    (p4 : List Nat → Option (Nat × Nat × Nat × Nat))
    (p6 : List Nat → Option (List Nat)) (n6 : List Nat → List Nat)
    (uri uri2 : RspamdUrl) (h : rspamd_url_is_ip p4 p6 n6 uri = some uri2) :
    uri2.flags &&& 2 ≠ 0 ∧ uri2.tldOff = 0 ∧ uri2.tldlen = uri2.hostlen := by
  unfold rspamd_url_is_ip at h
  dsimp only at h
  split at h <;>
    (split at h
     · exact Option.noConfusion h
     · split at h
       · rw [Option.some_inj] at h
         subst h
         exact ⟨or_flag_bit_two _ _ (by decide), rfl, rfl⟩
       · split at h
         · rw [Option.some_inj] at h
           subst h
           exact ⟨or_flag_bit_two _ _ (by decide), rfl, rfl⟩
         · split at h
           · exact Option.noConfusion h
           · split at h
             · rw [Option.some_inj] at h
               subst h
               exact ⟨or_flag_bit_two _ _ (by decide), rfl, rfl⟩
             · exact Option.noConfusion h)

/-- C4 witness: the host 0x7f.1 is decoded by the obscured-numeric branch
with the concrete libc models; the result carries NUMERIC_HOST and its tld
is the whole host. -/
theorem c4_numeric_tld_is_host_witness :
    (rspamd_url_is_ip inet_pton4 inet_pton6 inet_ntop6
        { string := [48, 120, 55, 102, 46, 49], hostOff := 0, hostlen := 6 } =
      some (rspamd_url_is_ip inet_pton4 inet_pton6 inet_ntop6
        { string := [48, 120, 55, 102, 46, 49], hostOff := 0, hostlen := 6 }).get!) ∧
    ((rspamd_url_is_ip inet_pton4 inet_pton6 inet_ntop6
        { string := [48, 120, 55, 102, 46, 49], hostOff := 0, hostlen := 6 }).get!.flags &&& 2 ≠ 0 ∧
     (rspamd_url_is_ip inet_pton4 inet_pton6 inet_ntop6
        { string := [48, 120, 55, 102, 46, 49], hostOff := 0, hostlen := 6 }).get!.tldOff = 0 ∧
     (rspamd_url_is_ip inet_pton4 inet_pton6 inet_ntop6
        { string := [48, 120, 55, 102, 46, 49], hostOff := 0, hostlen := 6 }).get!.tldlen =
       (rspamd_url_is_ip inet_pton4 inet_pton6 inet_ntop6
        { string := [48, 120, 55, 102, 46, 49], hostOff := 0, hostlen := 6 }).get!.hostlen) :=
  ⟨by decide,
    c4_numeric_tld_is_host inet_pton4 inet_pton6 inet_ntop6
      { string := [48, 120, 55, 102, 46, 49], hostOff := 0, hostlen := 6 }
      (rspamd_url_is_ip inet_pton4 inet_pton6 inet_ntop6
        { string := [48, 120, 55, 102, 46, 49], hostOff := 0, hostlen := 6 }).get! (by decide)⟩

/-- Builder of the mailto invariant for a state neither in user nor past the
at sign. -/
theorem mailtoInv_other (s : List Nat) (p c : Nat) (st : MSt) (u : HttpUrl)
    (hst : st ≠ .user ∧ st ≠ .at ∧ st ≠ .domain ∧ st ≠ .suffix_question ∧
      st ≠ .query)
    (h3 : ∀ fd, u.userinfo = some fd → uinfoOk s fd) :
    mailtoInv s ⟨p, c, st, u⟩ := by
  refine ⟨fun h => absurd h hst.1, fun h => ?_, h3⟩
  rcases h with h | h | h | h
  exacts [absurd h hst.2.1, absurd h hst.2.2.1, absurd h hst.2.2.2.1,
    absurd h hst.2.2.2.2]

/-- Builder of the mailto invariant for a state past the at sign. -/
theorem mailtoInv_past (s : List Nat) (p c : Nat) (st : MSt) (u : HttpUrl)
    (hst : st ≠ .user)
    (hui : ∃ fd, u.userinfo = some fd ∧ 0 < fd.len)
    (h3 : ∀ fd, u.userinfo = some fd → uinfoOk s fd) :
    mailtoInv s ⟨p, c, st, u⟩ := by
  exact ⟨fun h => absurd h hst, fun _ => hui, h3⟩

/-- Builder of the mailto invariant for the user state. -/
theorem mailtoInv_user (s : List Nat) (p c : Nat) (u : HttpUrl)
    (hrun : c ≤ p ∧ ∀ i, c ≤ i → i < p → is_mailsafe (byteAt s i) = true)
    (h3 : ∀ fd, u.userinfo = some fd → uinfoOk s fd) :
    mailtoInv s ⟨p, c, .user, u⟩ := by
  refine ⟨fun _ => hrun, fun h => ?_, h3⟩
  rcases h with h | h | h | h <;> exact nomatch h

/-- One step of the mailto machine preserves the mailto invariant, both on a
loop continuation and on a goto out. -/
theorem mailtoStep_inv (s : List Nat) (w : MState) (h : mailtoInv s w) :
    (∀ w2, mailtoStep s w = .inl w2 → mailtoInv s w2) ∧
    (∀ w2, mailtoStep s w = .inr w2 → mailtoInv s w2) := by
  obtain ⟨p, c, st, u⟩ := w
  obtain ⟨h1, h2, h3⟩ := h
  cases st
  case mailto =>
    refine ⟨fun w2 hw2 => ?_, fun w2 hw2 => ?_⟩ <;>
      (simp only [mailtoStep] at hw2; split_ifs at hw2 <;> cases hw2) <;>
      exact mailtoInv_other s _ _ _ _ (by decide) h3
  case semicolon =>
    refine ⟨fun w2 hw2 => ?_, fun w2 hw2 => ?_⟩ <;>
      (simp only [mailtoStep] at hw2; split_ifs at hw2 <;> cases hw2) <;>
      exact mailtoInv_other s _ _ _ _ (by decide) h3
  case slash =>
    refine ⟨fun w2 hw2 => ?_, fun w2 hw2 => ?_⟩ <;>
      (simp only [mailtoStep] at hw2; split_ifs at hw2 <;> cases hw2) <;>
      exact mailtoInv_other s _ _ _ _ (by decide) h3
  case slash_slash =>
    refine ⟨fun w2 hw2 => ?_, fun w2 hw2 => ?_⟩ <;>
      (simp only [mailtoStep] at hw2; split_ifs at hw2 <;> cases hw2)
    · exact mailtoInv_other s _ _ _ _ (by decide) h3
    · exact mailtoInv_user s p p u
        ⟨le_rfl, fun i hi hip => absurd hip (by omega)⟩ h3
    · exact mailtoInv_other s _ _ _ _ (by decide) h3
  case prefix_question =>
    refine ⟨fun w2 hw2 => ?_, fun w2 hw2 => ?_⟩ <;>
      (simp only [mailtoStep] at hw2; split_ifs at hw2 <;> cases hw2) <;>
      exact mailtoInv_other s _ _ _ _ (by decide) h3
  case destination =>
    refine ⟨fun w2 hw2 => ?_, fun w2 hw2 => ?_⟩ <;>
      (simp only [mailtoStep] at hw2; split_ifs at hw2 <;> cases hw2) <;>
      exact mailtoInv_other s _ _ _ _ (by decide) h3
  case equal =>
    refine ⟨fun w2 hw2 => ?_, fun w2 hw2 => ?_⟩ <;>
      (simp only [mailtoStep] at hw2; cases hw2)
    exact mailtoInv_user s p p u
      ⟨le_rfl, fun i hi hip => absurd hip (by omega)⟩ h3
  case user =>
    have hrun : c ≤ p ∧ ∀ i, c ≤ i → i < p → is_mailsafe (byteAt s i) = true :=
      h1 rfl
    constructor
    · intro w2 hw2
      simp only [mailtoStep] at hw2
      split_ifs at hw2 with ha hb hm <;> cases hw2
      · have ha2 : byteAt s p = 64 := ha
        have hb2 : ¬ (p - c = 0) := hb
        refine mailtoInv_past s (p + 1) c .at
          { u with userinfo := some ⟨c, p - c⟩ } (by decide)
          ⟨⟨c, p - c⟩, rfl, show 0 < p - c by omega⟩ ?_
        intro fd hfd
        have hfd2 : some (⟨c, p - c⟩ : FieldData) = some fd := hfd
        cases hfd2
        refine ⟨show 0 < p - c by omega, ?_, ?_⟩
        · show byteAt s (c + (p - c)) = 64
          rw [show c + (p - c) = p from by omega]
          exact ha2
        · intro i hilt
          have hilt2 : i < p - c := hilt
          show is_mailsafe (byteAt s (c + i)) = true
          exact hrun.2 (c + i) (by omega) (by omega)
      · have hm2 : is_mailsafe (byteAt s p) = true := hm
        refine mailtoInv_user s (p + 1) c u ⟨by omega, fun i hci hip => ?_⟩ h3
        rcases Nat.lt_succ_iff_lt_or_eq.mp hip with hlt | heq
        · exact hrun.2 i hci hlt
        · subst heq
          exact hm2
    · intro w2 hw2
      simp only [mailtoStep] at hw2
      split_ifs at hw2 <;> cases hw2
      · exact mailtoInv_user s p c u hrun h3
      · exact mailtoInv_user s p c u hrun h3
  case «at» =>
    refine ⟨fun w2 hw2 => ?_, fun w2 hw2 => ?_⟩ <;>
      (simp only [mailtoStep] at hw2; cases hw2)
    exact mailtoInv_past s p p .domain u (by decide) (h2 (Or.inl rfl)) h3
  case domain =>
    have hui := h2 (Or.inr (Or.inl rfl))
    refine ⟨fun w2 hw2 => ?_, fun w2 hw2 => ?_⟩ <;>
      (simp only [mailtoStep] at hw2; split_ifs at hw2 <;> cases hw2)
    · obtain ⟨fd, hfd, hlen⟩ := hui
      exact mailtoInv_past s (p + 1) c .suffix_question
        { u with host := some ⟨c, p - c⟩ } (by decide) ⟨fd, hfd, hlen⟩
        (fun fd2 hfd2 => h3 fd2 hfd2)
    · exact mailtoInv_past s (p + 1) c .domain u (by decide) hui h3
    · exact mailtoInv_past s p c .domain u (by decide) hui h3
  case suffix_question =>
    refine ⟨fun w2 hw2 => ?_, fun w2 hw2 => ?_⟩ <;>
      (simp only [mailtoStep] at hw2; cases hw2)
    exact mailtoInv_past s p p .query u (by decide)
      (h2 (Or.inr (Or.inr (Or.inl rfl)))) h3
  case query =>
    have hui := h2 (Or.inr (Or.inr (Or.inr rfl)))
    refine ⟨fun w2 hw2 => ?_, fun w2 hw2 => ?_⟩ <;>
      (simp only [mailtoStep] at hw2; split_ifs at hw2 <;> cases hw2)
    · exact mailtoInv_past s (p + 1) c .query u (by decide) hui h3
    · exact mailtoInv_past s p c .query u (by decide) hui h3

/-- The mailto loop preserves the mailto invariant. -/
theorem mailtoLoop_inv (s : List Nat) :
    ∀ (fuel : Nat) (w : MState), mailtoInv s w →
      mailtoInv s (mailtoLoop s fuel w).1
  | 0, w, h => h
  | fuel + 1, w, h => by
    rw [mailtoLoop]
    split
    · cases hst : mailtoStep s w with
      | inl w2 =>
        exact mailtoLoop_inv s fuel w2 ((mailtoStep_inv s w h).1 w2 hst)
      | inr w2 =>
        exact (mailtoStep_inv s w h).2 w2 hst
    · exact h

/-- mailtoFinish does not touch the userinfo field, the state or the
cursor. -/
theorem mailtoFinish_keeps (w : MState) (ex : MExit) :
    (mailtoFinish w ex).1.u.userinfo = w.u.userinfo ∧
    (mailtoFinish w ex).1.st = w.st ∧ (mailtoFinish w ex).1.p = w.p ∧
    (mailtoFinish w ex).1.c = w.c := by
  obtain ⟨p, c, st, u⟩ := w
  cases ex
  case eoi =>
    cases st <;> simp only [mailtoFinish] <;> (try split) <;> simp
  case toOut => simp [mailtoFinish]
  case fuelOut => simp [mailtoFinish]

/-- A zero return of the mailtoFinish analysis happens only in the domain
and query states. -/
theorem mailtoFinish_ret0_state (w : MState) (ex : MExit)
    (h : (mailtoFinish w ex).2 = 0) : w.st = .domain ∨ w.st = .query := by
  obtain ⟨p, c, st, u⟩ := w
  cases ex
  case eoi =>
    cases st
    case domain => exact Or.inl rfl
    case query => exact Or.inr rfl
    all_goals exact absurd h (by simp [mailtoFinish])
  case toOut => exact absurd h (by simp [mailtoFinish])
  case fuelOut => exact absurd h (by simp [mailtoFinish])

/-- The mailto invariant holds at the initial machine state. -/
theorem mailtoInv_init (s : List Nat) :
    mailtoInv s ⟨0, 0, .mailto, emptyHttpUrl⟩ := by
  refine ⟨?_, ?_, ?_⟩
  · intro hst
    exact nomatch hst
  · intro hst
    rcases hst with h2 | h2 | h2 | h2 <;> exact nomatch h2
  · intro fd2 hfd2
    exact absurd hfd2 (by simp [emptyHttpUrl])

/-- Every userinfo field emitted by rspamd_mailto_parse satisfies uinfoOk:
it is nonempty, it ends right before an at sign, and all its bytes are
mailsafe. -/
theorem mailto_userinfo_ok (strict : Bool) (s : List Nat) (fd : FieldData)
    (h : (rspamd_mailto_parse strict s).u.userinfo = some fd) :
    uinfoOk s fd := by
  simp only [rspamd_mailto_parse] at h
  have hinv := mailtoLoop_inv s (2 * s.length + 16) ⟨0, 0, .mailto, emptyHttpUrl⟩
    (mailtoInv_init s)
  set r := mailtoLoop s (2 * s.length + 16) ⟨0, 0, .mailto, emptyHttpUrl⟩ with hr
  have hk := mailtoFinish_keeps r.1 r.2
  rw [hk.1] at h
  exact hinv.2.2 fd h

/-- A strict mailto parse that returns 0 has emitted a nonempty userinfo
field. -/
theorem mailto_ret0_userinfo (s : List Nat)
    (h : (rspamd_mailto_parse true s).ret = 0) :
    ∃ fd, (rspamd_mailto_parse true s).u.userinfo = some fd ∧ 0 < fd.len := by
  simp only [rspamd_mailto_parse] at h ⊢
  have hinv := mailtoLoop_inv s (2 * s.length + 16) ⟨0, 0, .mailto, emptyHttpUrl⟩
    (mailtoInv_init s)
  set r := mailtoLoop s (2 * s.length + 16) ⟨0, 0, .mailto, emptyHttpUrl⟩ with hr
  have hk := mailtoFinish_keeps r.1 r.2
  have hret : (mailtoFinish r.1 r.2).2 = 0 := by simpa using h
  have hst := mailtoFinish_ret0_state r.1 r.2 hret
  rw [hk.1]
  rcases hst with hst | hst
  · exact hinv.2.1 (Or.inr (Or.inl hst))
  · exact hinv.2.1 (Or.inr (Or.inr (Or.inr hst)))

/-- Protocol characters are neither NUL nor the percent sign nor the
colon. -/
theorem protoChar_facts (c : Nat) (h : protoChar c) :
    c ≠ 0 ∧ c ≠ 37 ∧ c ≠ 58 := by
  rcases h with h | h | h
  · simp only [g_ascii_isalnum, Bool.or_eq_true, Bool.and_eq_true,
      decide_eq_true_eq] at h
    omega
  · omega
  · omega

/-- rspamd_decode_url is the identity on a list without percent signs. -/
theorem decode_no37 : ∀ (l : List Nat), (∀ x ∈ l, x ≠ 37) →
    rspamd_decode_url l = l
  | [], _ => rfl
  | c :: rest, h => by
    have hc : c ≠ 37 := h c (by simp)
    have hrest : ∀ x ∈ rest, x ≠ 37 := fun x hx => h x (by simp [hx])
    have ih := decode_no37 rest hrest
    rw [rspamd_decode_url.eq_def]
    split
    · rename_i heq
      exact absurd heq (by simp)
    · rename_i a b r2 heq
      exact absurd (by injection heq) hc
    · rename_i c2 r2 heq
      injection heq with h1 h2
      subst h1
      subst h2
      rw [ih]

/-- Taking k bytes of a splice that rewrites the region from offset off on
gives the first k bytes of the original, when k is at most off. -/
theorem take_splice (s A : List Nat) (k off d : Nat) (hk : k ≤ off)
    (hks : k ≤ s.length) :
    (s.take off ++ A ++ s.drop d).take k = s.take k := by
  rw [List.append_assoc, List.take_append_of_le_length
    (by rw [List.length_take]; omega)]
  rw [List.take_take, Nat.min_eq_left hk]

/-- Reading inside the taken prefix sees the original byte. -/
theorem byteAt_take (s : List Nat) (L i : Nat) (hi : i < L) :
    byteAt (s.take L) i = byteAt s i := by
  simp only [byteAt]
  rcases lt_or_le i s.length with hlt | hge
  · rw [List.getD_eq_getElem _ _ (by rw [List.length_take]; omega),
      List.getD_eq_getElem _ _ hlt]
    exact List.getElem_take _
  · rw [List.getD_eq_default _ _ (by rw [List.length_take]; omega),
      List.getD_eq_default _ _ hge]

/-- Reading inside a mapped prefix applies the map to the original byte. -/
theorem byteAt_map_take (s : List Nat) (f : Nat → Nat) (L i : Nat)
    (hi : i < L) (hL : L ≤ s.length) :
    byteAt ((s.take L).map f) i = f (byteAt s i) := by
  have hlen : ((s.take L).map f).length = L := by
    rw [List.length_map, List.length_take]
    omega
  simp only [byteAt]
  rw [List.getD_eq_getElem _ _ (by omega),
    List.getD_eq_getElem _ _ (by omega : i < s.length)]
  rw [List.getElem_map]
  congr 1
  exact List.getElem_take _

/-- One successful comparison step of g_ascii_strncasecmp. -/
theorem strncasecmp_step (s1 s2 : List Nat) (i m : Nat)
    (ha : byteAt s1 i ≠ 0) (hb : byteAt s2 i ≠ 0)
    (heq : g_ascii_tolower (byteAt s1 i) = g_ascii_tolower (byteAt s2 i)) :
    g_ascii_strncasecmp s1 s2 i (m + 1) = g_ascii_strncasecmp s1 s2 (i + 1) m := by
  rw [g_ascii_strncasecmp]
  rw [if_pos ⟨ha, hb⟩, if_neg (by simp [heq])]

/-- A seven byte case insensitive match against the mailto: prefix, from the
lowercased first six bytes and the colon. -/
theorem strncasecmp_mailto (s : List Nat)
    (hml : ∀ i < 6, g_ascii_tolower (byteAt s i) = byteAt mailtoColon i)
    (hnz : ∀ i < 6, byteAt s i ≠ 0)
    (h58 : byteAt s 6 = 58) :
    g_ascii_strncasecmp s mailtoColon 0 7 = 0 := by
  have step : ∀ i, i < 6 → ∀ m,
      g_ascii_strncasecmp s mailtoColon i (m + 1) =
        g_ascii_strncasecmp s mailtoColon (i + 1) m := by
    intro i hi m
    refine strncasecmp_step s mailtoColon i m (hnz i hi) ?_ ?_
    · interval_cases i <;> decide
    · rw [hml i hi]
      interval_cases i <;> decide
  have e0 : g_ascii_strncasecmp s mailtoColon 0 7 =
      g_ascii_strncasecmp s mailtoColon 1 6 := step 0 (by omega) 6
  have e1 : g_ascii_strncasecmp s mailtoColon 1 6 =
      g_ascii_strncasecmp s mailtoColon 2 5 := step 1 (by omega) 5
  have e2 : g_ascii_strncasecmp s mailtoColon 2 5 =
      g_ascii_strncasecmp s mailtoColon 3 4 := step 2 (by omega) 4
  have e3 : g_ascii_strncasecmp s mailtoColon 3 4 =
      g_ascii_strncasecmp s mailtoColon 4 3 := step 3 (by omega) 3
  have e4 : g_ascii_strncasecmp s mailtoColon 4 3 =
      g_ascii_strncasecmp s mailtoColon 5 2 := step 4 (by omega) 2
  have e5 : g_ascii_strncasecmp s mailtoColon 5 2 =
      g_ascii_strncasecmp s mailtoColon 6 1 := step 5 (by omega) 1
  have e6 : g_ascii_strncasecmp s mailtoColon 6 1 = 0 := by
    rw [g_ascii_strncasecmp]
    rw [if_pos ⟨by rw [h58]; decide, by decide⟩,
      if_neg (by rw [h58]; decide)]
    rw [g_ascii_strncasecmp]
  rw [e0, e1, e2, e3, e4, e5, e6]

/-- On a seven byte input made of six protocol characters and a colon, the
strict web parse fails: the machine consumes the schema, enters the
semicolon state, hits the end of the input there, and the set analysis
returns 1. -/
theorem webRun_len7_ret1 (hi : Nat → Bool) (s : List Nat) (h7 : s.length = 7)
    (hs : ∀ i < 6, protoChar (byteAt s i)) (h58 : byteAt s 6 = 58) :
    (rspamd_web_parse true hi s).ret = 1 := by
  have aux : ∀ (n : Nat), ∀ (p t0 : Nat), p + n = 6 → ∀ (fuel : Nat), n + 2 ≤ fuel →
      webLoop true hi s fuel ⟨p, 0, 0, false, t0, .protocol, emptyHttpUrl⟩ =
        (⟨7, 0, 0, false, 58, .semicolon,
          { emptyHttpUrl with schema := some ⟨0, 6⟩ }⟩, .eoi) := by
    intro n
    induction n with
    | zero =>
      intro p t0 hp fuel hfuel
      have hp6 : p = 6 := by omega
      subst hp6
      obtain ⟨f1, rfl⟩ : ∃ f1, fuel = f1 + 1 := ⟨fuel - 1, by omega⟩
      obtain ⟨f2, rfl⟩ : ∃ f2, f1 = f2 + 1 := ⟨f1 - 1, by omega⟩
      rw [webLoop, if_pos (show (6 : Nat) < s.length by omega)]
      have hstep : webStep true hi s ⟨6, 0, 0, false, t0, .protocol, emptyHttpUrl⟩ =
          .cont ⟨7, 0, 0, false, 58, .semicolon,
            { emptyHttpUrl with schema := some ⟨0, 6⟩ }⟩ := by
        simp only [webStep]
        rw [h58]
        simp
      rw [hstep]
      dsimp only
      rw [webLoop, if_neg (show ¬ (7 : Nat) < s.length by omega)]
    | succ n ih =>
      intro p t0 hp fuel hfuel
      obtain ⟨f1, rfl⟩ : ∃ f1, fuel = f1 + 1 := ⟨fuel - 1, by omega⟩
      rw [webLoop, if_pos (show p < s.length by omega)]
      dsimp only
      have hpc := hs p (by omega)
      have hfacts := protoChar_facts _ hpc
      have hstep : webStep true hi s ⟨p, 0, 0, false, t0, .protocol, emptyHttpUrl⟩ =
          .cont ⟨p + 1, 0, 0, false, byteAt s p, .protocol, emptyHttpUrl⟩ := by
        simp only [webStep]
        rw [if_neg hfacts.2.2]
        rw [if_neg (by rcases hpc with h | h | h <;> simp [h])]
      rw [hstep]
      dsimp only
      exact ih (p + 1) (byteAt s p) (by omega) f1 (by omega)
  simp only [rspamd_web_parse]
  rw [aux 6 0 0 (by omega) (8 * s.length + 32) (by omega)]
  rfl

/-- Builder of the web invariant in the schema-emitted case. -/
theorem webInv_some (s : List Nat) (fd : FieldData) (p c sp : Nat) (us : Bool)
    (t : Nat) (st : WSt) (u : HttpUrl) (hsch : u.schema = some fd)
    (hok : schemaOk s fd) (hp : fd.len + 1 ≤ p)
    (hcl : webStClause (fd.len + 1) ⟨p, c, sp, us, t, st, u⟩) :
    webInv s ⟨p, c, sp, us, t, st, u⟩ := by
  simp only [webInv, hsch]
  exact ⟨hok, hp, hcl⟩

/-- Builder of the web invariant in the initial protocol state. -/
theorem webInv_none (s : List Nat) (p sp : Nat) (us : Bool) (t : Nat)
    (hpre : ∀ i < p, protoChar (byteAt s i)) :
    webInv s ⟨p, 0, sp, us, t, .protocol, emptyHttpUrl⟩ := by
  simp only [webInv, emptyHttpUrl]
  exact ⟨trivial, trivial, trivial, hpre⟩

/-- One protocol-state step preserves the web invariant (schema not yet
emitted). -/
theorem webStep_inv_proto (hi : Nat → Bool) (s : List Nat)
    (p sp : Nat) (us : Bool) (t0 : Nat)
    (hp : p < s.length)
    (hpre : ∀ i < p, protoChar (byteAt s i)) :
    wstepInv s (webStep true hi s ⟨p, 0, sp, us, t0, .protocol, emptyHttpUrl⟩) := by
  simp only [webStep]
  split_ifs with h58 hbad hstrict
  · refine webInv_some s ⟨0, p - 0⟩ (p + 1) 0 sp us _ .semicolon
      { emptyHttpUrl with schema := some ⟨0, p - 0⟩ } rfl
      ?_ (show p - 0 + 1 ≤ p + 1 by omega) ?_
    · refine ⟨rfl, show p - 0 < s.length by omega, ?_, ?_⟩
      · show byteAt s (p - 0) = 58
        rw [show p - 0 = p from rfl]
        exact h58
      · intro i hi2
        have hi3 : i < p - 0 := hi2
        exact hpre i (by omega)
    · simp [webStClause, emptyHttpUrl]
  · exact absurd trivial hstrict.1
  · exact trivial
  · have hpc : protoChar (byteAt s p) := by
      unfold protoChar
      rcases Decidable.em (g_ascii_isalnum (byteAt s p) = true) with h | h
      · exact Or.inl h
      · rcases Decidable.em (byteAt s p = 43) with h43 | h43
        · exact Or.inr (Or.inl h43)
        · rcases Decidable.em (byteAt s p = 45) with h45 | h45
          · exact Or.inr (Or.inr h45)
          · exact absurd ⟨by simpa using h, h43, h45⟩ hbad
    refine webInv_none s (p + 1) sp us _ ?_
    intro i hi2
    rcases Nat.lt_succ_iff_lt_or_eq.mp hi2 with hlt | heq
    · exact hpre i hlt
    · subst heq
      exact hpc

/-- One semicolon-state step preserves the web invariant. -/
theorem webStep_inv_semicolon (hi : Nat → Bool) (s : List Nat) (fd : FieldData)
    (p c sp : Nat) (us : Bool) (t0 : Nat) (u : HttpUrl)
    (hsch : u.schema = some fd) (hok : schemaOk s fd) (hbp : fd.len + 1 ≤ p)
    (hcl : webStClause (fd.len + 1) ⟨p, c, sp, us, t0, .semicolon, u⟩) :
    wstepInv s (webStep true hi s ⟨p, c, sp, us, t0, .semicolon, u⟩) := by
  simp only [webStClause] at hcl
  obtain ⟨hh, hpa, hq, hf⟩ := hcl
  simp only [webStep]
  split_ifs with h1
  · exact webInv_some s fd (p + 1) c sp us _ .slash u hsch hok (by omega)
      (by simp only [webStClause]; exact ⟨hh, hpa, hq, hf⟩)
  · exact webInv_some s fd p c sp us _ .slash_slash u hsch hok hbp
      (by simp only [webStClause]; exact ⟨hh, hpa, hq, hf⟩)

/-- One slash-state step preserves the web invariant. -/
theorem webStep_inv_slash (hi : Nat → Bool) (s : List Nat) (fd : FieldData)
    (p c sp : Nat) (us : Bool) (t0 : Nat) (u : HttpUrl)
    (hsch : u.schema = some fd) (hok : schemaOk s fd) (hbp : fd.len + 1 ≤ p)
    (hcl : webStClause (fd.len + 1) ⟨p, c, sp, us, t0, .slash, u⟩) :
    wstepInv s (webStep true hi s ⟨p, c, sp, us, t0, .slash, u⟩) := by
  simp only [webStClause] at hcl
  obtain ⟨hh, hpa, hq, hf⟩ := hcl
  simp only [webStep]
  split_ifs with h1
  · exact webInv_some s fd (p + 1) c sp us _ .slash_slash u hsch hok (by omega)
      (by simp only [webStClause]; exact ⟨hh, hpa, hq, hf⟩)
  · exact trivial

/-- One slash-slash-state step preserves the web invariant. -/
theorem webStep_inv_slash_slash (hi : Nat → Bool) (s : List Nat) (fd : FieldData)
    (p c sp : Nat) (us : Bool) (t0 : Nat) (u : HttpUrl)
    (hsch : u.schema = some fd) (hok : schemaOk s fd) (hbp : fd.len + 1 ≤ p)
    (hcl : webStClause (fd.len + 1) ⟨p, c, sp, us, t0, .slash_slash, u⟩) :
    wstepInv s (webStep true hi s ⟨p, c, sp, us, t0, .slash_slash, u⟩) := by
  simp only [webStClause] at hcl
  obtain ⟨hh, hpa, hq, hf⟩ := hcl
  simp only [webStep]
  split_ifs with h1 h2
  · exact webInv_some s fd (p + 1) (p + 1) p us _ .ipv6 u hsch hok (by omega)
      (by
        simp only [webStClause]
        refine ⟨hpa, hq, hf, ?_, by omega, by omega⟩
        intro fd2 hfd2
        rw [hh] at hfd2
        exact Option.noConfusion hfd2)
  · exact webInv_some s fd p p p us _ .domain u hsch hok hbp
      (by
        simp only [webStClause]
        exact ⟨hh, hpa, hq, hf, by omega, by omega, by omega, by omega⟩)
  · exact webInv_some s fd (p + 1) c sp us _ .slash_slash u hsch hok (by omega)
      (by simp only [webStClause]; exact ⟨hh, hpa, hq, hf⟩)

/-- One ipv6-state step preserves the web invariant. -/
theorem webStep_inv_ipv6 (hi : Nat → Bool) (s : List Nat) (fd : FieldData)
    (p c sp : Nat) (us : Bool) (t0 : Nat) (u : HttpUrl)
    (hsch : u.schema = some fd) (hok : schemaOk s fd) (hbp : fd.len + 1 ≤ p)
    (hcl : webStClause (fd.len + 1) ⟨p, c, sp, us, t0, .ipv6, u⟩) :
    wstepInv s (webStep true hi s ⟨p, c, sp, us, t0, .ipv6, u⟩) := by
  simp only [webStClause] at hcl
  obtain ⟨hpa, hq, hf, hhost, hbc, hcp⟩ := hcl
  simp only [webStep]
  split_ifs with h93 hpc h58 h47 hlen
  · exact trivial
  · exact webInv_some s fd (p + 1 + 1) (p + 1 + 1) sp us _ .port
      { u with host := some ⟨c, p - c⟩ } hsch hok (by omega)
      (by
        simp only [webStClause]
        refine ⟨hpa, hq, hf, ?_, by omega⟩
        intro fd2 hfd2
        injection hfd2 with h
        subst h
        exact ⟨show fd.len + 1 ≤ c by omega, show c + (p - c) ≤ p + 1 + 1 by omega⟩)
  · exact webInv_some s fd (p + 1 + 1) (p + 1 + 1) sp us _ .path
      { u with host := some ⟨c, p - c⟩ } hsch hok (by omega)
      (by
        simp only [webStClause]
        refine ⟨hpa, hq, hf, ?_, by omega⟩
        intro fd2 hfd2
        injection hfd2 with h
        subst h
        exact ⟨show fd.len + 1 ≤ c by omega, show c + (p - c) ≤ p + 1 + 1 by omega⟩)
  · exact trivial
  · exact webInv_some s fd (p + 1 + 1) c sp us _ .ipv6
      { u with host := some ⟨c, p - c⟩ } hsch hok (by omega)
      (by
        simp only [webStClause]
        refine ⟨hpa, hq, hf, ?_, by omega, by omega⟩
        intro fd2 hfd2
        injection hfd2 with h
        subst h
        exact show fd.len + 1 ≤ c by omega)
  · exact trivial
  · exact webInv_some s fd (p + 1) c sp us _ .ipv6 u hsch hok (by omega)
      (by
        simp only [webStClause]
        exact ⟨hpa, hq, hf, hhost, by omega, by omega⟩)

/-- One user-state step preserves the web invariant. -/
theorem webStep_inv_user (hi : Nat → Bool) (s : List Nat) (fd : FieldData)
    (p c sp : Nat) (us : Bool) (t0 : Nat) (u : HttpUrl)
    (hsch : u.schema = some fd) (hok : schemaOk s fd) (hbp : fd.len + 1 ≤ p)
    (hcl : webStClause (fd.len + 1) ⟨p, c, sp, us, t0, .user, u⟩) :
    wstepInv s (webStep true hi s ⟨p, c, sp, us, t0, .user, u⟩) := by
  simp only [webStClause] at hcl
  obtain ⟨hh, hpa, hq, hf, hbsp, hspp⟩ := hcl
  simp only [webStep]
  split_ifs with h58 hpc h64 hpc2 hgr
  · exact trivial
  · exact webInv_some s fd (p + 1) c sp us _ .password_start
      { u with userinfo := some ⟨c, p - c⟩ } hsch hok (by omega)
      (by simp only [webStClause]; exact ⟨hh, hpa, hq, hf, hbsp, by omega⟩)
  · exact trivial
  · exact webInv_some s fd (p + 1) c sp us _ .at
      { u with userinfo := some ⟨c, p - c⟩ } hsch hok (by omega)
      (by simp only [webStClause]; exact ⟨hh, hpa, hq, hf, hbsp, by omega⟩)
  · exact webInv_some s fd (p + 1) c sp us _ .user u hsch hok (by omega)
      (by simp only [webStClause]; exact ⟨hh, hpa, hq, hf, hbsp, by omega⟩)
  · exact trivial

/-- One password-start-state step preserves the web invariant. -/
theorem webStep_inv_password_start (hi : Nat → Bool) (s : List Nat)
    (fd : FieldData) (p c sp : Nat) (us : Bool) (t0 : Nat) (u : HttpUrl)
    (hsch : u.schema = some fd) (hok : schemaOk s fd) (hbp : fd.len + 1 ≤ p)
    (hcl : webStClause (fd.len + 1) ⟨p, c, sp, us, t0, .password_start, u⟩) :
    wstepInv s (webStep true hi s ⟨p, c, sp, us, t0, .password_start, u⟩) := by
  simp only [webStClause] at hcl
  obtain ⟨hh, hpa, hq, hf, hbsp, hspp⟩ := hcl
  simp only [webStep]
  split_ifs with h64
  · exact webInv_some s fd (p + 1) c sp us _ .at u hsch hok (by omega)
      (by simp only [webStClause]; exact ⟨hh, hpa, hq, hf, hbsp, by omega⟩)
  · exact webInv_some s fd (p + 1) p sp us _ .password u hsch hok (by omega)
      (by simp only [webStClause]; exact ⟨hh, hpa, hq, hf, hbsp, by omega⟩)

/-- One password-state step preserves the web invariant. -/
theorem webStep_inv_password (hi : Nat → Bool) (s : List Nat) (fd : FieldData)
    (p c sp : Nat) (us : Bool) (t0 : Nat) (u : HttpUrl)
    (hsch : u.schema = some fd) (hok : schemaOk s fd) (hbp : fd.len + 1 ≤ p)
    (hcl : webStClause (fd.len + 1) ⟨p, c, sp, us, t0, .password, u⟩) :
    wstepInv s (webStep true hi s ⟨p, c, sp, us, t0, .password, u⟩) := by
  simp only [webStClause] at hcl
  obtain ⟨hh, hpa, hq, hf, hbsp, hspp⟩ := hcl
  simp only [webStep]
  split_ifs with h64 hgr
  · exact webInv_some s fd (p + 1) c sp us _ .at u hsch hok (by omega)
      (by simp only [webStClause]; exact ⟨hh, hpa, hq, hf, hbsp, by omega⟩)
  · exact webInv_some s fd (p + 1) c sp us _ .password u hsch hok (by omega)
      (by simp only [webStClause]; exact ⟨hh, hpa, hq, hf, hbsp, by omega⟩)
  · exact trivial

/-- One at-state step preserves the web invariant. -/
theorem webStep_inv_at (hi : Nat → Bool) (s : List Nat) (fd : FieldData)
    (p c sp : Nat) (us : Bool) (t0 : Nat) (u : HttpUrl)
    (hsch : u.schema = some fd) (hok : schemaOk s fd) (hbp : fd.len + 1 ≤ p)
    (hcl : webStClause (fd.len + 1) ⟨p, c, sp, us, t0, .at, u⟩) :
    wstepInv s (webStep true hi s ⟨p, c, sp, us, t0, .at, u⟩) := by
  simp only [webStClause] at hcl
  obtain ⟨hh, hpa, hq, hf, hbsp, hspp⟩ := hcl
  simp only [webStep]
  split_ifs with h91
  · exact webInv_some s fd (p + 1) (p + 1) sp us _ .ipv6 u hsch hok (by omega)
      (by
        simp only [webStClause]
        refine ⟨hpa, hq, hf, ?_, by omega, by omega⟩
        intro fd2 hfd2
        rw [hh] at hfd2
        exact Option.noConfusion hfd2)
  · exact webInv_some s fd p p sp us _ .domain u hsch hok hbp
      (by
        simp only [webStClause]
        exact ⟨hh, hpa, hq, hf, hbsp, by omega, by omega, by omega⟩)

/-- One domain-state step preserves the web invariant. -/
theorem webStep_inv_domain (hi : Nat → Bool) (s : List Nat) (fd : FieldData)
    (p c sp : Nat) (us : Bool) (t0 : Nat) (u : HttpUrl)
    (hsch : u.schema = some fd) (hok : schemaOk s fd) (hbp : fd.len + 1 ≤ p)
    (hcl : webStClause (fd.len + 1) ⟨p, c, sp, us, t0, .domain, u⟩) :
    wstepInv s (webStep true hi s ⟨p, c, sp, us, t0, .domain, u⟩) := by
  simp only [webStClause] at hcl
  obtain ⟨hh, hpa, hq, hf, hbsp, hspp, hbc, hcp⟩ := hcl
  simp only [webStep]
  split_ifs
  all_goals first
    | exact trivial
    | exact absurd rfl (by assumption)
    | exact webInv_some s fd (p + 1) c sp us _ .suffix_slash
        { u with host := some ⟨c, p - c⟩ } hsch hok (by omega)
        (by
          simp only [webStClause]
          refine ⟨hpa, hq, hf, ?_⟩
          intro fd2 hfd2
          injection hfd2 with h2
          subst h2
          exact ⟨show fd.len + 1 ≤ c by omega, show c + (p - c) ≤ p + 1 by omega⟩)
    | exact webInv_some s fd (p + 1) (p + 1) sp us _ .query
        { u with host := some ⟨c, p - c⟩ } hsch hok (by omega)
        (by
          simp only [webStClause]
          refine ⟨hq, hf, ?_, ?_, by omega⟩
          · intro fd2 hfd2
            injection hfd2 with h2
            subst h2
            exact ⟨show fd.len + 1 ≤ c by omega, show c + (p - c) ≤ p + 1 by omega⟩
          · intro fd2 hfd2
            rw [hpa] at hfd2
            exact Option.noConfusion hfd2)
    | exact webInv_some s fd (p + 1) (p + 1) sp us _ .part
        { u with host := some ⟨c, p - c⟩ } hsch hok (by omega)
        (by
          simp only [webStClause]
          refine ⟨hf, ?_, ?_, ?_, by omega⟩
          · intro fd2 hfd2
            injection hfd2 with h2
            subst h2
            exact ⟨show fd.len + 1 ≤ c by omega, show c + (p - c) ≤ p + 1 by omega⟩
          · intro fd2 hfd2
            rw [hpa] at hfd2
            exact Option.noConfusion hfd2
          · intro fd2 hfd2
            rw [hq] at hfd2
            exact Option.noConfusion hfd2)
    | exact webInv_some s fd (p + 1) (p + 1) sp us _ .port
        { u with host := some ⟨c, p - c⟩ } hsch hok (by omega)
        (by
          simp only [webStClause]
          refine ⟨hpa, hq, hf, ?_, by omega⟩
          intro fd2 hfd2
          injection hfd2 with h2
          subst h2
          exact ⟨show fd.len + 1 ≤ c by omega, show c + (p - c) ≤ p + 1 by omega⟩)
    | exact webInv_some s fd (p + 1) c sp us _ .port_password u hsch hok
        (by omega)
        (by
          simp only [webStClause]
          exact ⟨hh, hpa, hq, hf, hbsp, by omega⟩)
    | exact webInv_some s fd _ c sp us _ .domain u hsch hok (by omega)
        (by
          simp only [webStClause]
          exact ⟨hh, hpa, hq, hf, hbsp, by omega, by omega, by omega⟩)

/-- One port-password-state step preserves the web invariant. -/
theorem webStep_inv_port_password (hi : Nat → Bool) (s : List Nat)
    (fd : FieldData) (p c sp : Nat) (us : Bool) (t0 : Nat) (u : HttpUrl)
    (hsch : u.schema = some fd) (hok : schemaOk s fd) (hbp : fd.len + 1 ≤ p)
    (hcl : webStClause (fd.len + 1) ⟨p, c, sp, us, t0, .port_password, u⟩) :
    wstepInv s (webStep true hi s ⟨p, c, sp, us, t0, .port_password, u⟩) := by
  simp only [webStClause] at hcl
  obtain ⟨hh, hpa, hq, hf, hbsp, hsp1⟩ := hcl
  simp only [webStep]
  split_ifs
  · exact webInv_some s fd p p sp us _ .port
      { u with host := some ⟨sp, p - 1 - sp⟩ } hsch hok hbp
      (by
        simp only [webStClause]
        refine ⟨hpa, hq, hf, ?_, by omega⟩
        intro fd2 hfd2
        injection hfd2 with h2
        subst h2
        exact ⟨show fd.len + 1 ≤ sp by omega,
          show sp + (p - 1 - sp) ≤ p by omega⟩)
  · exact webInv_some s fd sp sp sp true _ .user u hsch hok (by omega)
      (by
        simp only [webStClause]
        exact ⟨hh, hpa, hq, hf, by omega, by omega⟩)

/-- One port-state step preserves the web invariant. -/
theorem webStep_inv_port (hi : Nat → Bool) (s : List Nat) (fd : FieldData)
    (p c sp : Nat) (us : Bool) (t0 : Nat) (u : HttpUrl)
    (hsch : u.schema = some fd) (hok : schemaOk s fd) (hbp : fd.len + 1 ≤ p)
    (hcl : webStClause (fd.len + 1) ⟨p, c, sp, us, t0, .port, u⟩) :
    wstepInv s (webStep true hi s ⟨p, c, sp, us, t0, .port, u⟩) := by
  simp only [webStClause] at hcl
  obtain ⟨hpa, hq, hf, hhost, hcp⟩ := hcl
  simp only [webStep]
  split_ifs
  all_goals first
    | exact trivial
    | exact absurd rfl (by assumption)
    | exact webInv_some s fd (p + 1) c sp us _ .suffix_slash
        { u with port := toU16 (strtoulSigned (s.drop c)) } hsch hok (by omega)
        (by
          simp only [webStClause]
          refine ⟨hpa, hq, hf, ?_⟩
          intro fd2 hfd2
          have h2 := hhost fd2 hfd2
          exact ⟨h2.1, by omega⟩)
    | exact webInv_some s fd (p + 1) (p + 1) sp us _ .query
        { u with port := toU16 (strtoulSigned (s.drop c)) } hsch hok (by omega)
        (by
          simp only [webStClause]
          refine ⟨hq, hf, ?_, ?_, by omega⟩
          · intro fd2 hfd2
            have h2 := hhost fd2 hfd2
            exact ⟨h2.1, by omega⟩
          · intro fd2 hfd2
            rw [hpa] at hfd2
            exact Option.noConfusion hfd2)
    | exact webInv_some s fd (p + 1) (p + 1) sp us _ .part
        { u with port := toU16 (strtoulSigned (s.drop c)) } hsch hok (by omega)
        (by
          simp only [webStClause]
          refine ⟨hf, ?_, ?_, ?_, by omega⟩
          · intro fd2 hfd2
            have h2 := hhost fd2 hfd2
            exact ⟨h2.1, by omega⟩
          · intro fd2 hfd2
            rw [hpa] at hfd2
            exact Option.noConfusion hfd2
          · intro fd2 hfd2
            rw [hq] at hfd2
            exact Option.noConfusion hfd2)
    | exact webInv_some s fd (p + 1) c sp us _ .port u hsch hok (by omega)
        (by
          simp only [webStClause]
          exact ⟨hpa, hq, hf, hhost, by omega⟩)
    | exact webInv_some s fd p c sp us _ .port u hsch hok hbp
        (by
          simp only [webStClause]
          exact ⟨hpa, hq, hf, hhost, hcp⟩)

/-- One suffix-slash-state step preserves the web invariant. -/
theorem webStep_inv_suffix_slash (hi : Nat → Bool) (s : List Nat)
    (fd : FieldData) (p c sp : Nat) (us : Bool) (t0 : Nat) (u : HttpUrl)
    (hsch : u.schema = some fd) (hok : schemaOk s fd) (hbp : fd.len + 1 ≤ p)
    (hcl : webStClause (fd.len + 1) ⟨p, c, sp, us, t0, .suffix_slash, u⟩) :
    wstepInv s (webStep true hi s ⟨p, c, sp, us, t0, .suffix_slash, u⟩) := by
  simp only [webStClause] at hcl
  obtain ⟨hpa, hq, hf, hhost⟩ := hcl
  simp only [webStep]
  split_ifs
  all_goals first
    | exact webInv_some s fd p p sp us _ .path u hsch hok hbp
        (by
          simp only [webStClause]
          refine ⟨hpa, hq, hf, ?_, le_rfl⟩
          intro fd2 hfd2
          exact hhost fd2 hfd2)
    | exact webInv_some s fd (p + 1) c sp us _ .suffix_slash u hsch hok
        (by omega)
        (by
          simp only [webStClause]
          refine ⟨hpa, hq, hf, ?_⟩
          intro fd2 hfd2
          have h2 := hhost fd2 hfd2
          exact ⟨h2.1, by omega⟩)

/-- One path-state step preserves the web invariant. -/
theorem webStep_inv_path (hi : Nat → Bool) (s : List Nat) (fd : FieldData)
    (p c sp : Nat) (us : Bool) (t0 : Nat) (u : HttpUrl)
    (hsch : u.schema = some fd) (hok : schemaOk s fd) (hbp : fd.len + 1 ≤ p)
    (hcl : webStClause (fd.len + 1) ⟨p, c, sp, us, t0, .path, u⟩) :
    wstepInv s (webStep true hi s ⟨p, c, sp, us, t0, .path, u⟩) := by
  simp only [webStClause] at hcl
  obtain ⟨hpa, hq, hf, hhost, hcp⟩ := hcl
  simp only [webStep]
  split_ifs
  all_goals first
    | exact trivial
    | exact absurd rfl (by assumption)
    | exact webInv_some s fd (p + 1) (p + 1) sp us _ .query
        { u with path := some ⟨c, p - c⟩ } hsch hok (by omega)
        (by
          simp only [webStClause]
          refine ⟨hq, hf, ?_, ?_, by omega⟩
          · intro fd2 hfd2
            have h2 := hhost fd2 hfd2
            exact ⟨h2.1, by omega⟩
          · intro fd2 hfd2
            injection hfd2 with h2
            subst h2
            exact ⟨fun fh hfh => (hhost fh hfh).2,
              show c + (p - c) ≤ p + 1 by omega⟩)
    | exact webInv_some s fd (p + 1) (p + 1) sp us _ .query u hsch hok
        (by omega)
        (by
          simp only [webStClause]
          refine ⟨hq, hf, ?_, ?_, by omega⟩
          · intro fd2 hfd2
            have h2 := hhost fd2 hfd2
            exact ⟨h2.1, by omega⟩
          · intro fd2 hfd2
            rw [hpa] at hfd2
            exact Option.noConfusion hfd2)
    | exact webInv_some s fd (p + 1) c sp us _ .path u hsch hok (by omega)
        (by
          simp only [webStClause]
          exact ⟨hpa, hq, hf, hhost, by omega⟩)
    | exact webInv_some s fd p c sp us _ .path u hsch hok hbp
        (by
          simp only [webStClause]
          exact ⟨hpa, hq, hf, hhost, hcp⟩)

/-- One query-state step preserves the web invariant. -/
theorem webStep_inv_query (hi : Nat → Bool) (s : List Nat) (fd : FieldData)
    (p c sp : Nat) (us : Bool) (t0 : Nat) (u : HttpUrl)
    (hsch : u.schema = some fd) (hok : schemaOk s fd) (hbp : fd.len + 1 ≤ p)
    (hcl : webStClause (fd.len + 1) ⟨p, c, sp, us, t0, .query, u⟩) :
    wstepInv s (webStep true hi s ⟨p, c, sp, us, t0, .query, u⟩) := by
  simp only [webStClause] at hcl
  obtain ⟨hq, hf, hhost, hpath, hcp⟩ := hcl
  simp only [webStep]
  split_ifs
  all_goals first
    | exact trivial
    | exact absurd rfl (by assumption)
    | exact webInv_some s fd (p + 1) (p + 1) sp us _ .part
        { u with query := some ⟨c, p - c⟩ } hsch hok (by omega)
        (by
          simp only [webStClause]
          refine ⟨hf, ?_, ?_, ?_, by omega⟩
          · intro fd2 hfd2
            have h2 := hhost fd2 hfd2
            exact ⟨h2.1, by omega⟩
          · intro fd2 hfd2
            have h2 := hpath fd2 hfd2
            exact ⟨h2.1, by omega⟩
          · intro fd2 hfd2
            injection hfd2 with h2
            subst h2
            exact ⟨fun fh hfh => (hhost fh hfh).2,
              fun fp hfp => (hpath fp hfp).2,
              show c + (p - c) ≤ p + 1 by omega⟩)
    | exact webInv_some s fd (p + 1) (p + 1) sp us _ .part u hsch hok
        (by omega)
        (by
          simp only [webStClause]
          refine ⟨hf, ?_, ?_, ?_, by omega⟩
          · intro fd2 hfd2
            have h2 := hhost fd2 hfd2
            exact ⟨h2.1, by omega⟩
          · intro fd2 hfd2
            have h2 := hpath fd2 hfd2
            exact ⟨h2.1, by omega⟩
          · intro fd2 hfd2
            rw [hq] at hfd2
            exact Option.noConfusion hfd2)
    | exact webInv_some s fd (p + 1) c sp us _ .query u hsch hok (by omega)
        (by
          simp only [webStClause]
          exact ⟨hq, hf, hhost, hpath, by omega⟩)
    | exact webInv_some s fd p c sp us _ .query u hsch hok hbp
        (by
          simp only [webStClause]
          exact ⟨hq, hf, hhost, hpath, hcp⟩)

/-- One part-state step preserves the web invariant. -/
theorem webStep_inv_part (hi : Nat → Bool) (s : List Nat) (fd : FieldData)
    (p c sp : Nat) (us : Bool) (t0 : Nat) (u : HttpUrl)
    (hsch : u.schema = some fd) (hok : schemaOk s fd) (hbp : fd.len + 1 ≤ p)
    (hcl : webStClause (fd.len + 1) ⟨p, c, sp, us, t0, .part, u⟩) :
    wstepInv s (webStep true hi s ⟨p, c, sp, us, t0, .part, u⟩) := by
  simp only [webStClause] at hcl
  obtain ⟨hf, hhost, hpath, hquery, hcp⟩ := hcl
  simp only [webStep]
  split_ifs
  all_goals first
    | exact trivial
    | exact absurd rfl (by assumption)
    | exact webInv_some s fd (p + 1) c sp us _ .part u hsch hok (by omega)
        (by
          simp only [webStClause]
          exact ⟨hf, hhost, hpath, hquery, by omega⟩)
    | exact webInv_some s fd p c sp us _ .part u hsch hok hbp
        (by
          simp only [webStClause]
          exact ⟨hf, hhost, hpath, hquery, hcp⟩)

/-- One step of the strict web machine preserves the web invariant, for
loop continuations and goto set. -/
theorem webStep_inv (hi : Nat → Bool) (s : List Nat) (w : WState)
    (hp : w.p < s.length) (hJ : webInv s w) :
    wstepInv s (webStep true hi s w) := by
  obtain ⟨p, c, sp, us, t0, st, u⟩ := w
  rcases hsch : u.schema with _ | fd
  · simp only [webInv, hsch] at hJ
    obtain ⟨hst, hc, hu, hpre⟩ := hJ
    subst hst
    subst hc
    subst hu
    exact webStep_inv_proto hi s p sp us t0 hp hpre
  · simp only [webInv, hsch] at hJ
    obtain ⟨hok, hbp, hcl⟩ := hJ
    cases st
    case protocol =>
      simp only [webStClause] at hcl
    case semicolon =>
      exact webStep_inv_semicolon hi s fd p c sp us t0 u hsch hok hbp hcl
    case slash =>
      exact webStep_inv_slash hi s fd p c sp us t0 u hsch hok hbp hcl
    case slash_slash =>
      exact webStep_inv_slash_slash hi s fd p c sp us t0 u hsch hok hbp hcl
    case user =>
      exact webStep_inv_user hi s fd p c sp us t0 u hsch hok hbp hcl
    case «at» =>
      exact webStep_inv_at hi s fd p c sp us t0 u hsch hok hbp hcl
    case password_start =>
      exact webStep_inv_password_start hi s fd p c sp us t0 u hsch hok hbp hcl
    case password =>
      exact webStep_inv_password hi s fd p c sp us t0 u hsch hok hbp hcl
    case domain =>
      exact webStep_inv_domain hi s fd p c sp us t0 u hsch hok hbp hcl
    case ipv6 =>
      exact webStep_inv_ipv6 hi s fd p c sp us t0 u hsch hok hbp hcl
    case port_password =>
      exact webStep_inv_port_password hi s fd p c sp us t0 u hsch hok hbp hcl
    case port =>
      exact webStep_inv_port hi s fd p c sp us t0 u hsch hok hbp hcl
    case suffix_slash =>
      exact webStep_inv_suffix_slash hi s fd p c sp us t0 u hsch hok hbp hcl
    case path =>
      exact webStep_inv_path hi s fd p c sp us t0 u hsch hok hbp hcl
    case query =>
      exact webStep_inv_query hi s fd p c sp us t0 u hsch hok hbp hcl
    case part =>
      exact webStep_inv_part hi s fd p c sp us t0 u hsch hok hbp hcl

/-- The strict web loop preserves the web invariant unless it ends in a
goto out. -/
theorem webLoop_inv (hi : Nat → Bool) (s : List Nat) :
    ∀ (fuel : Nat) (w : WState), webInv s w →
      (webLoop true hi s fuel w).2 ≠ .toOut →
        webInv s (webLoop true hi s fuel w).1
  | 0, w, h, _ => h
  | fuel + 1, w, h, hne => by
    by_cases hplen : w.p < s.length
    · have hstep := webStep_inv hi s w hplen h
      cases hres : webStep true hi s w with
      | cont w2 =>
        have hred : webLoop true hi s (fuel + 1) w = webLoop true hi s fuel w2 := by
          rw [webLoop, if_pos hplen, hres]
        rw [hred] at hne ⊢
        rw [hres] at hstep
        exact webLoop_inv hi s fuel w2 hstep hne
      | set w2 =>
        have hred : webLoop true hi s (fuel + 1) w = (w2, .toSet) := by
          rw [webLoop, if_pos hplen, hres]
        rw [hred]
        rw [hres] at hstep
        exact hstep
      | out w2 =>
        have hred : webLoop true hi s (fuel + 1) w = (w2, .toOut) := by
          rw [webLoop, if_pos hplen, hres]
        rw [hred] at hne
        exact absurd rfl hne
    · have hred : webLoop true hi s (fuel + 1) w = (w, .eoi) := by
        rw [webLoop, if_neg hplen]
      rw [hred]
      exact h

/-- The set analysis of the strict web parse at the end of the input, on an
invariant-satisfying final state with return value 0, yields the final
field layout facts. -/
theorem webFinish_facts_core (s : List Nat) (w : WState)
    (hJ : webInv s w) (h0 : (webFinish s w .eoi).2 = 0) :
    webFinalFacts s (webFinish s w .eoi).1.p (webFinish s w .eoi).1.u := by
  obtain ⟨p, c, sp, us, t0, st, u⟩ := w
  rcases hsch : u.schema with _ | fd
  · simp only [webInv, hsch] at hJ
    obtain ⟨hst, hc, hu, hpre⟩ := hJ
    subst hst
    exact absurd h0 (by simp [webFinish])
  · simp only [webInv, hsch] at hJ
    obtain ⟨hok, hbp, hcl⟩ := hJ
    cases st
    case protocol =>
      simp only [webStClause] at hcl
    case semicolon => exact absurd h0 (by simp [webFinish])
    case slash => exact absurd h0 (by simp [webFinish])
    case slash_slash => exact absurd h0 (by simp [webFinish])
    case user => exact absurd h0 (by simp [webFinish])
    case password_start => exact absurd h0 (by simp [webFinish])
    case password => exact absurd h0 (by simp [webFinish])
    case «at» => exact absurd h0 (by simp [webFinish])
    case port_password => exact absurd h0 (by simp [webFinish])
    case domain =>
      simp only [webStClause] at hcl
      obtain ⟨hh, hpa, hq, hf, hbsp, hspp, hbc, hcp⟩ := hcl
      simp only [webFinish] at h0 ⊢
      split_ifs at h0 ⊢ with hpc
      · refine ⟨fd, hsch, hok, hbp, ?_, ?_, ?_, ?_, ?_, ?_, ?_⟩
        · intro fh hfh
          injection hfh with h2
          subst h2
          exact show fd.len + 1 ≤ c by omega
        · intro fh fp hfh hfp
          exact Option.noConfusion (hpa ▸ hfp)
        · intro fh fq hfh hfq
          exact Option.noConfusion (hq ▸ hfq)
        · intro fp fq hfp hfq
          exact Option.noConfusion (hpa ▸ hfp)
        · intro fh ff hfh hff
          exact Option.noConfusion (hf ▸ hff)
        · intro fp ff hfp hff
          exact Option.noConfusion (hpa ▸ hfp)
        · intro fq ff hfq hff
          exact Option.noConfusion (hq ▸ hfq)
    case port =>
      simp only [webStClause] at hcl
      obtain ⟨hpa, hq, hf, hhost, hcp⟩ := hcl
      simp only [webFinish] at h0 ⊢
      split_ifs at h0 ⊢ with hbad
      · refine ⟨fd, hsch, hok, hbp, ?_, ?_, ?_, ?_, ?_, ?_, ?_⟩
        · intro fh hfh
          exact (hhost fh hfh).1
        · intro fh fp hfh hfp
          exact Option.noConfusion (hpa ▸ hfp)
        · intro fh fq hfh hfq
          exact Option.noConfusion (hq ▸ hfq)
        · intro fp fq hfp hfq
          exact Option.noConfusion (hpa ▸ hfp)
        · intro fh ff hfh hff
          exact Option.noConfusion (hf ▸ hff)
        · intro fp ff hfp hff
          exact Option.noConfusion (hpa ▸ hfp)
        · intro fq ff hfq hff
          exact Option.noConfusion (hq ▸ hfq)
    case suffix_slash =>
      simp only [webStClause] at hcl
      obtain ⟨hpa, hq, hf, hhost⟩ := hcl
      simp only [webFinish]
      refine ⟨fd, hsch, hok, hbp, ?_, ?_, ?_, ?_, ?_, ?_, ?_⟩
      · intro fh hfh
        exact (hhost fh hfh).1
      · intro fh fp hfh hfp
        exact Option.noConfusion (hpa ▸ hfp)
      · intro fh fq hfh hfq
        exact Option.noConfusion (hq ▸ hfq)
      · intro fp fq hfp hfq
        exact Option.noConfusion (hpa ▸ hfp)
      · intro fh ff hfh hff
        exact Option.noConfusion (hf ▸ hff)
      · intro fp ff hfp hff
        exact Option.noConfusion (hpa ▸ hfp)
      · intro fq ff hfq hff
        exact Option.noConfusion (hq ▸ hfq)
    case path =>
      simp only [webStClause] at hcl
      obtain ⟨hpa, hq, hf, hhost, hcp⟩ := hcl
      simp only [webFinish] at h0 ⊢
      split_ifs at h0 ⊢ with hlen
      · refine ⟨fd, hsch, hok, hbp, ?_, ?_, ?_, ?_, ?_, ?_, ?_⟩
        · intro fh hfh
          exact (hhost fh hfh).1
        · intro fh fp hfh hfp
          injection hfp with h2
          subst h2
          exact (hhost fh hfh).2
        · intro fh fq hfh hfq
          exact Option.noConfusion (hq ▸ hfq)
        · intro fp fq hfp hfq
          exact Option.noConfusion (hq ▸ hfq)
        · intro fh ff hfh hff
          exact Option.noConfusion (hf ▸ hff)
        · intro fp ff hfp hff
          exact Option.noConfusion (hf ▸ hff)
        · intro fq ff hfq hff
          exact Option.noConfusion (hq ▸ hfq)
      · refine ⟨fd, hsch, hok, hbp, ?_, ?_, ?_, ?_, ?_, ?_, ?_⟩
        · intro fh hfh
          exact (hhost fh hfh).1
        · intro fh fp hfh hfp
          exact Option.noConfusion (hpa ▸ hfp)
        · intro fh fq hfh hfq
          exact Option.noConfusion (hq ▸ hfq)
        · intro fp fq hfp hfq
          exact Option.noConfusion (hpa ▸ hfp)
        · intro fh ff hfh hff
          exact Option.noConfusion (hf ▸ hff)
        · intro fp ff hfp hff
          exact Option.noConfusion (hpa ▸ hfp)
        · intro fq ff hfq hff
          exact Option.noConfusion (hq ▸ hfq)
    case query =>
      simp only [webStClause] at hcl
      obtain ⟨hq, hf, hhost, hpath, hcp⟩ := hcl
      simp only [webFinish] at h0 ⊢
      split_ifs at h0 ⊢ with hlen
      · refine ⟨fd, hsch, hok, hbp, ?_, ?_, ?_, ?_, ?_, ?_, ?_⟩
        · intro fh hfh
          exact (hhost fh hfh).1
        · intro fh fp hfh hfp
          exact (hpath fp hfp).1 fh hfh
        · intro fh fq hfh hfq
          injection hfq with h2
          subst h2
          exact (hhost fh hfh).2
        · intro fp fq hfp hfq
          injection hfq with h2
          subst h2
          exact (hpath fp hfp).2
        · intro fh ff hfh hff
          exact Option.noConfusion (hf ▸ hff)
        · intro fp ff hfp hff
          exact Option.noConfusion (hf ▸ hff)
        · intro fq ff hfq hff
          exact Option.noConfusion (hf ▸ hff)
      · refine ⟨fd, hsch, hok, hbp, ?_, ?_, ?_, ?_, ?_, ?_, ?_⟩
        · intro fh hfh
          exact (hhost fh hfh).1
        · intro fh fp hfh hfp
          exact (hpath fp hfp).1 fh hfh
        · intro fh fq hfh hfq
          exact Option.noConfusion (hq ▸ hfq)
        · intro fp fq hfp hfq
          exact Option.noConfusion (hq ▸ hfq)
        · intro fh ff hfh hff
          exact Option.noConfusion (hf ▸ hff)
        · intro fp ff hfp hff
          exact Option.noConfusion (hf ▸ hff)
        · intro fq ff hfq hff
          exact Option.noConfusion (hq ▸ hfq)
    case part =>
      simp only [webStClause] at hcl
      obtain ⟨hf, hhost, hpath, hquery, hcp⟩ := hcl
      simp only [webFinish] at h0 ⊢
      split_ifs at h0 ⊢ with hlen
      · refine ⟨fd, hsch, hok, hbp, ?_, ?_, ?_, ?_, ?_, ?_, ?_⟩
        · intro fh hfh
          exact (hhost fh hfh).1
        · intro fh fp hfh hfp
          exact (hpath fp hfp).1 fh hfh
        · intro fh fq hfh hfq
          exact (hquery fq hfq).1 fh hfh
        · intro fp fq hfp hfq
          exact (hquery fq hfq).2.1 fp hfp
        · intro fh ff hfh hff
          injection hff with h2
          subst h2
          exact (hhost fh hfh).2
        · intro fp ff hfp hff
          injection hff with h2
          subst h2
          exact (hpath fp hfp).2
        · intro fq ff hfq hff
          injection hff with h2
          subst h2
          exact (hquery fq hfq).2.2
      · refine ⟨fd, hsch, hok, hbp, ?_, ?_, ?_, ?_, ?_, ?_, ?_⟩
        · intro fh hfh
          exact (hhost fh hfh).1
        · intro fh fp hfh hfp
          exact (hpath fp hfp).1 fh hfh
        · intro fh fq hfh hfq
          exact (hquery fq hfq).1 fh hfh
        · intro fp fq hfp hfq
          exact (hquery fq hfq).2.1 fp hfp
        · intro fh ff hfh hff
          exact Option.noConfusion (hf ▸ hff)
        · intro fp ff hfp hff
          exact Option.noConfusion (hf ▸ hff)
        · intro fq ff hfq hff
          exact Option.noConfusion (hf ▸ hff)
    case ipv6 =>
      simp only [webStClause] at hcl
      obtain ⟨hpa, hq, hf, hhost, hbc, hcp⟩ := hcl
      simp only [webFinish] at h0 ⊢
      split_ifs at h0 ⊢ with ht
      dsimp only
      refine ⟨fd, hsch, hok, hbp, ?_, ?_, ?_, ?_, ?_, ?_, ?_⟩
      · intro fh hfh
        exact hhost fh hfh
      · intro fh fp hfh hfp
        rw [hpa] at hfp
        exact Option.noConfusion hfp
      · intro fh fq hfh hfq
        rw [hq] at hfq
        exact Option.noConfusion hfq
      · intro fp fq hfp hfq
        rw [hpa] at hfp
        exact Option.noConfusion hfp
      · intro fh ff hfh hff
        rw [hf] at hff
        exact Option.noConfusion hff
      · intro fp ff hfp hff
        rw [hpa] at hfp
        exact Option.noConfusion hfp
      · intro fq ff hfq hff
        rw [hq] at hfq
        exact Option.noConfusion hfq

/-- The set analysis of the strict web parse, on an invariant-satisfying
final state with return value 0, yields the final field layout facts. -/
theorem webFinish_facts (s : List Nat) (w : WState) (ex : WExit)
    (hJ : webInv s w) (h0 : (webFinish s w ex).2 = 0) :
    webFinalFacts s (webFinish s w ex).1.p (webFinish s w ex).1.u := by
  cases ex
  case eoi => exact webFinish_facts_core s w hJ h0
  case toSet => exact webFinish_facts_core s w hJ h0
  case toOut =>
    obtain ⟨p, c, sp, us, t0, st, u⟩ := w
    exact absurd h0 (by simp [webFinish])
  case fuelOut =>
    obtain ⟨p, c, sp, us, t0, st, u⟩ := w
    exact absurd h0 (by simp [webFinish])

/-- An accepted strict web parse satisfies the final field layout facts at
its end position. -/
theorem web_parse_ok_facts (hi : Nat → Bool) (s : List Nat)
    (hret : (rspamd_web_parse true hi s).ret = 0) :
    webFinalFacts s (rspamd_web_parse true hi s).endPos
      (rspamd_web_parse true hi s).u := by
  simp only [rspamd_web_parse] at hret ⊢
  set r := webLoop true hi s (8 * s.length + 32)
    ⟨0, 0, 0, false, 0, .protocol, emptyHttpUrl⟩ with hr
  have hne : r.2 ≠ .toOut := by
    intro hout
    rw [hout] at hret
    simp [webFinish] at hret
  have hJ := webLoop_inv hi s (8 * s.length + 32)
    ⟨0, 0, 0, false, 0, .protocol, emptyHttpUrl⟩
    (webInv_none s 0 0 false 0 (fun i hi2 => absurd hi2 (by omega)))
    (by rw [← hr]; exact hne)
  rw [← hr] at hJ
  exact webFinish_facts s r.1 r.2 hJ hret

/-- A take-prefix equality bounds the length of the left list. -/
theorem le_length_of_take_eq {s1 s2 : List Nat} {k : Nat} (hks : k ≤ s2.length)
    (h : s1.take k = s2.take k) : k ≤ s1.length := by
  have h2 := congrArg List.length h
  rw [List.length_take, List.length_take] at h2
  omega

/-- The host decode step preserves the string prefix left of the host and
every protocol-relevant field, and moves the later offsets left by at most
the host length. -/
theorem decodeAndShift_host_take (uri : RspamdUrl) (k : Nat)
    (hk : k ≤ uri.hostOff) (hks : k ≤ uri.string.length) :
    (decodeAndShift uri .host).string.take k = uri.string.take k ∧
    (decodeAndShift uri .host).protocollen = uri.protocollen ∧
    (decodeAndShift uri .host).hostOff = uri.hostOff ∧
    (decodeAndShift uri .host).datalen = uri.datalen ∧
    (decodeAndShift uri .host).querylen = uri.querylen ∧
    (decodeAndShift uri .host).fragmentlen = uri.fragmentlen ∧
    uri.dataOff - uri.hostlen ≤ (decodeAndShift uri .host).dataOff ∧
    uri.queryOff - uri.hostlen ≤ (decodeAndShift uri .host).queryOff ∧
    uri.fragmentOff - uri.hostlen ≤ (decodeAndShift uri .host).fragmentOff := by
  simp only [decodeAndShift]
  split_ifs
  all_goals
    refine ⟨take_splice _ _ _ _ _ hk hks, rfl, rfl, rfl, rfl, rfl, ?_, ?_, ?_⟩ <;>
      (dsimp only; omega)

/-- The path decode step, guarded as in decodePhase. -/
theorem decStep_path_take (uri : RspamdUrl) (k : Nat)
    (hk : uri.datalen ≠ 0 → k ≤ uri.dataOff) (hks : k ≤ uri.string.length) :
    ((if uri.datalen ≠ 0 then decodeAndShift uri .path else uri)).string.take k =
      uri.string.take k ∧
    (if uri.datalen ≠ 0 then decodeAndShift uri .path else uri).protocollen =
      uri.protocollen ∧
    (if uri.datalen ≠ 0 then decodeAndShift uri .path else uri).hostOff =
      uri.hostOff ∧
    (if uri.datalen ≠ 0 then decodeAndShift uri .path else uri).querylen =
      uri.querylen ∧
    (if uri.datalen ≠ 0 then decodeAndShift uri .path else uri).fragmentlen =
      uri.fragmentlen ∧
    uri.queryOff - uri.datalen ≤
      (if uri.datalen ≠ 0 then decodeAndShift uri .path else uri).queryOff ∧
    uri.fragmentOff - uri.datalen ≤
      (if uri.datalen ≠ 0 then decodeAndShift uri .path else uri).fragmentOff := by
  simp only [decodeAndShift]
  split_ifs
  all_goals first
    | exact ⟨rfl, rfl, rfl, rfl, rfl, by omega, by omega⟩
    | (refine ⟨take_splice _ _ _ _ _ (hk (by assumption)) hks, rfl, rfl, rfl,
          rfl, ?_, ?_⟩ <;> (dsimp only; omega))

/-- The query decode step, guarded as in decodePhase. -/
theorem decStep_query_take (uri : RspamdUrl) (k : Nat)
    (hk : uri.querylen ≠ 0 → k ≤ uri.queryOff) (hks : k ≤ uri.string.length) :
    ((if uri.querylen ≠ 0 then decodeAndShift uri .query else uri)).string.take k =
      uri.string.take k ∧
    (if uri.querylen ≠ 0 then decodeAndShift uri .query else uri).protocollen =
      uri.protocollen ∧
    (if uri.querylen ≠ 0 then decodeAndShift uri .query else uri).hostOff =
      uri.hostOff ∧
    (if uri.querylen ≠ 0 then decodeAndShift uri .query else uri).fragmentlen =
      uri.fragmentlen ∧
    uri.fragmentOff - uri.querylen ≤
      (if uri.querylen ≠ 0 then decodeAndShift uri .query else uri).fragmentOff := by
  simp only [decodeAndShift]
  split_ifs
  all_goals first
    | exact ⟨rfl, rfl, rfl, rfl, by omega⟩
    | (refine ⟨take_splice _ _ _ _ _ (hk (by assumption)) hks, rfl, rfl, rfl,
          ?_⟩ <;> (dsimp only; omega))

/-- The fragment decode step, guarded as in decodePhase. -/
theorem decStep_fragment_take (uri : RspamdUrl) (k : Nat)
    (hk : uri.fragmentlen ≠ 0 → k ≤ uri.fragmentOff)
    (hks : k ≤ uri.string.length) :
    ((if uri.fragmentlen ≠ 0 then decodeAndShift uri .fragment else
        uri)).string.take k = uri.string.take k ∧
    (if uri.fragmentlen ≠ 0 then decodeAndShift uri .fragment else
      uri).protocollen = uri.protocollen ∧
    (if uri.fragmentlen ≠ 0 then decodeAndShift uri .fragment else
      uri).hostOff = uri.hostOff := by
  simp only [decodeAndShift]
  split_ifs
  all_goals first
    | exact ⟨rfl, rfl, rfl⟩
    | exact ⟨take_splice _ _ _ _ _ (hk (by assumption)) hks, rfl, rfl⟩

/-- Lowercasing the first k bytes and taking k gives the mapped prefix. -/
theorem lcFirst_take (k : Nat) (s : List Nat) (hk : k ≤ s.length) :
    (lcFirst k s).take k = (s.take k).map g_ascii_tolower := by
  simp only [lcFirst]
  rw [List.take_append_of_le_length
    (by rw [List.length_map, List.length_take]; omega)]
  exact List.take_of_length_le (by rw [List.length_map, List.length_take]; omega)

/-- lcFirst preserves the length. -/
theorem lcFirst_length (k : Nat) (s : List Nat) :
    (lcFirst k s).length = s.length := by
  simp only [lcFirst, List.length_append, List.length_map, List.length_take,
    List.length_drop]
  omega

/-- Lowercasing a region right of k preserves the first k bytes. -/
theorem lcRegion_take (s : List Nat) (off len k : Nat) (hk : k ≤ off)
    (hks : k ≤ s.length) :
    (lcRegion s off len).take k = s.take k := by
  simp only [lcRegion]
  exact take_splice s _ k off _ hk hks

/-- The decode-and-normalize phase keeps the schema length and turns the
schema prefix into its ASCII lowercasing, provided the schema bytes are
protocol characters and every component lies right of the schema colon. -/
theorem decodePhase_proto_take (uri : RspamdUrl)
    (hnp : ∀ i < uri.protocollen, protoChar (byteAt uri.string i))
    (hlen : uri.protocollen ≤ uri.string.length)
    (hH1 : uri.protocollen ≤ uri.hostOff)
    (hD : uri.datalen ≠ 0 → uri.hostOff + uri.hostlen ≤ uri.dataOff)
    (hQ : uri.querylen ≠ 0 → uri.hostOff + uri.hostlen ≤ uri.queryOff ∧
      uri.dataOff + uri.datalen ≤ uri.queryOff)
    (hF : uri.fragmentlen ≠ 0 → uri.hostOff + uri.hostlen ≤ uri.fragmentOff ∧
      uri.dataOff + uri.datalen ≤ uri.fragmentOff ∧
      uri.queryOff + uri.querylen ≤ uri.fragmentOff) :
    (decodePhase uri).protocollen = uri.protocollen ∧
    (decodePhase uri).string.take uri.protocollen =
      (uri.string.take uri.protocollen).map g_ascii_tolower := by
  have h1 : decodeAndShift uri .schema = uri := by
    simp only [decodeAndShift]
    have hdec : rspamd_decode_url (uri.string.take uri.protocollen) =
        uri.string.take uri.protocollen := by
      apply decode_no37
      intro x hx
      obtain ⟨i, hi, hx2⟩ := List.getElem_of_mem hx
      have hilt : i < uri.protocollen := by
        have h2 := hi
        rw [List.length_take] at h2
        omega
      have hxb : x = byteAt uri.string i := by
        rw [byteAt, List.getD_eq_getElem _ _ (show i < uri.string.length by omega)]
        rw [← hx2]
        exact List.getElem_take _
      rw [hxb]
      exact (protoChar_facts _ (hnp i hilt)).2.1
    rw [hdec, if_pos (by rw [List.length_take]; omega)]
    rw [List.take_append_drop]
  simp only [decodePhase]
  rw [h1]
  set u2 := decodeAndShift uri .host with hu2
  have h2 := decodeAndShift_host_take uri uri.protocollen hH1 hlen
  rw [← hu2] at h2
  obtain ⟨h2t, h2pl, h2ho, h2dl, h2ql, h2fl, h2do, h2qo, h2fo⟩ := h2
  have h2len : uri.protocollen ≤ u2.string.length :=
    le_length_of_take_eq hlen h2t
  set u3 := if u2.datalen ≠ 0 then decodeAndShift u2 .path else u2 with hu3
  have h3 := decStep_path_take u2 uri.protocollen
    (by
      intro hnz
      rw [h2dl] at hnz
      have hd2 := hD hnz
      omega) h2len
  rw [← hu3] at h3
  obtain ⟨h3t, h3pl, h3ho, h3ql, h3fl, h3qo, h3fo⟩ := h3
  have h3len : uri.protocollen ≤ u3.string.length :=
    le_length_of_take_eq h2len h3t
  set u4 := if u3.querylen ≠ 0 then decodeAndShift u3 .query else u3 with hu4
  have h4 := decStep_query_take u3 uri.protocollen
    (by
      intro hnz
      rw [h3ql, h2ql] at hnz
      have hq2 := hQ hnz
      rcases Nat.eq_zero_or_pos uri.datalen with hd0 | hd0
      · omega
      · have hd2 := hD (by omega)
        omega) h3len
  rw [← hu4] at h4
  obtain ⟨h4t, h4pl, h4ho, h4fl, h4fo⟩ := h4
  have h4len : uri.protocollen ≤ u4.string.length :=
    le_length_of_take_eq h3len h4t
  set u5 := if u4.fragmentlen ≠ 0 then decodeAndShift u4 .fragment else u4
    with hu5
  have h5 := decStep_fragment_take u4 uri.protocollen
    (by
      intro hnz
      rw [h4fl, h3fl, h2fl] at hnz
      have hf2 := hF hnz
      rcases Nat.eq_zero_or_pos uri.querylen with hq0 | hq0
      · rcases Nat.eq_zero_or_pos uri.datalen with hd0 | hd0
        · omega
        · have hd2 := hD (by omega)
          omega
      · have hq2 := hQ (by omega)
        rcases Nat.eq_zero_or_pos uri.datalen with hd0 | hd0
        · omega
        · have hd2 := hD (by omega)
          omega) h4len
  rw [← hu5] at h5
  obtain ⟨h5t, h5pl, h5ho⟩ := h5
  have h5len : uri.protocollen ≤ u5.string.length :=
    le_length_of_take_eq h4len h5t
  have hpl5 : u5.protocollen = uri.protocollen := by
    rw [h5pl, h4pl, h3pl, h2pl]
  have hho5 : u5.hostOff = uri.hostOff := by
    rw [h5ho, h4ho, h3ho, h2ho]
  constructor
  · show u5.protocollen = uri.protocollen
    exact hpl5
  · show (lcRegion (lcFirst u5.protocollen u5.string)
        u5.hostOff u5.hostlen).take uri.protocollen =
      (uri.string.take uri.protocollen).map g_ascii_tolower
    rw [hpl5, hho5]
    rw [lcRegion_take _ _ _ _ hH1 (by rw [lcFirst_length]; omega)]
    rw [lcFirst_take _ _ h5len]
    rw [h5t, h4t, h3t, h2t]

/-- The protocol field set by decodePhase is the lookup on the final
record. -/
theorem decodePhase_protocol_eq (uri : RspamdUrl) :
    (decodePhase uri).protocol = protocolLookup (decodePhase uri) := rfl

/-- A protocol lookup of 4 means a six byte schema reading mailto. -/
theorem protocolLookup_eq4 (uri : RspamdUrl) (h : protocolLookup uri = 4) :
    uri.protocollen = 6 ∧
      uri.string.take uri.protocollen = [109, 97, 105, 108, 116, 111] := by
  unfold protocolLookup at h
  dsimp only at h
  split_ifs at h with h1 h2 h3 h4 h5
  all_goals first
    | assumption
    | exact absurd h (by decide)

/-- An accepted assembleUrl keeps the protocol of the decode phase and
requires a nonempty assembled host. -/
theorem assembleUrl_ok_protocol (pats : List UrlMatcher) (str : List Nat)
    (len : Nat) (u : HttpUrl) (uri : RspamdUrl)
    (h : assembleUrl pats str len u = .ok uri) :
    uri.protocol = (decodePhase (assembleFields str len u)).protocol ∧
      (assembleFields str len u).hostlen ≠ 0 := by
  simp only [assembleUrl] at h
  split_ifs at h with hh
  all_goals first
    | exact absurd h (by simp)
    | exact ⟨(classifyTail_ok_keeps pats _ uri h).2.2.1, hh⟩

/-- An accepted assembleUrl on a prefix of the scanned text, with the web
machine layout facts and protocol mailto, forces a six byte schema whose
lowercasing reads mailto. -/
theorem assembleUrl_mailto_prefix (pats : List UrlMatcher) (s : List Nat)
    (len : Nat) (u : HttpUrl) (uri : RspamdUrl) (fd : FieldData)
    (hsch : u.schema = some fd)
    (hok : schemaOk s fd)
    (hlt : fd.len < len)
    (hhostoff : ∀ fh, u.host = some fh → fd.len + 1 ≤ fh.off)
    (hhp : ∀ fh fp, u.host = some fh → u.path = some fp →
      fh.off + fh.len ≤ fp.off)
    (hhq : ∀ fh fq, u.host = some fh → u.query = some fq →
      fh.off + fh.len ≤ fq.off)
    (hpq : ∀ fp fq, u.path = some fp → u.query = some fq →
      fp.off + fp.len ≤ fq.off)
    (hhf : ∀ fh ff, u.host = some fh → u.fragment = some ff →
      fh.off + fh.len ≤ ff.off)
    (hpf : ∀ fp ff, u.path = some fp → u.fragment = some ff →
      fp.off + fp.len ≤ ff.off)
    (hqf : ∀ fq ff, u.query = some fq → u.fragment = some ff →
      fq.off + fq.len ≤ ff.off)
    (hres : assembleUrl pats (s.take len) len u = .ok uri)
    (hp4 : uri.protocol = 4) :
    fd.len = 6 ∧
      ∀ i < 6, g_ascii_tolower (byteAt s i) = byteAt mailtoColon i := by
  obtain ⟨hoff0, hfdlen, h58, hprotos⟩ := hok
  obtain ⟨hprot, hhl⟩ := assembleUrl_ok_protocol pats (s.take len) len u uri hres
  set uri0 := assembleFields (s.take len) len u with hu0
  have hhost : ∃ fh, u.host = some fh ∧ uri0.hostOff = fh.off ∧
      uri0.hostlen = fh.len := by
    rcases hcase : u.host with _ | fh
    · exact absurd (by simp [hu0, assembleFields, hcase]) hhl
    · exact ⟨fh, rfl, by simp [hu0, assembleFields, hcase],
        by simp [hu0, assembleFields, hcase]⟩
  obtain ⟨fh, hfh, hfho, hfhl⟩ := hhost
  have hpl0 : uri0.protocollen = fd.len := by
    simp [hu0, assembleFields, hsch]
  have hstr0 : uri0.string = s.take len := rfl
  have hdp := decodePhase_proto_take uri0
    (by
      rw [hpl0, hstr0]
      intro i hi2
      rw [byteAt_take s len i (by omega)]
      exact hprotos i hi2)
    (by
      rw [hpl0, hstr0, List.length_take]
      omega)
    (by
      rw [hpl0, hfho]
      have h2 := hhostoff fh hfh
      omega)
    (by
      intro hnz
      rcases hcase : u.path with _ | fp
      · exact absurd (by simp [hu0, assembleFields, hcase]) hnz
      · have h2 := hhp fh fp hfh hcase
        rw [hfho, hfhl]
        simp only [hu0, assembleFields, hcase]
        omega)
    (by
      intro hnz
      rcases hcase : u.query with _ | fq
      · exact absurd (by simp [hu0, assembleFields, hcase]) hnz
      · have h2 := hhq fh fq hfh hcase
        constructor
        · rw [hfho, hfhl]
          simp only [hu0, assembleFields, hcase]
          omega
        · rcases hcasep : u.path with _ | fp
          · simp [hu0, assembleFields, hcase, hcasep]
          · have h3 := hpq fp fq hcasep hcase
            simp only [hu0, assembleFields, hcase, hcasep]
            omega)
    (by
      intro hnz
      rcases hcase : u.fragment with _ | ff
      · exact absurd (by simp [hu0, assembleFields, hcase]) hnz
      · have h2 := hhf fh ff hfh hcase
        refine ⟨?_, ?_, ?_⟩
        · rw [hfho, hfhl]
          simp only [hu0, assembleFields, hcase]
          omega
        · rcases hcasep : u.path with _ | fp
          · simp [hu0, assembleFields, hcase, hcasep]
          · have h3 := hpf fp ff hcasep hcase
            simp only [hu0, assembleFields, hcase, hcasep]
            omega
        · rcases hcaseq : u.query with _ | fq
          · simp [hu0, assembleFields, hcase, hcaseq]
          · have h3 := hqf fq ff hcaseq hcase
            simp only [hu0, assembleFields, hcase, hcaseq]
            omega)
  obtain ⟨hdpl, hdtake⟩ := hdp
  have hlook : protocolLookup (decodePhase uri0) = 4 := by
    rw [← decodePhase_protocol_eq, ← hprot]
    exact hp4
  obtain ⟨hl6, hlpre⟩ := protocolLookup_eq4 _ hlook
  have hfd6 : fd.len = 6 := by
    rw [hdpl, hpl0] at hl6
    exact hl6
  refine ⟨hfd6, ?_⟩
  rw [hdpl] at hlpre
  rw [hdtake] at hlpre
  rw [hpl0, hfd6, hstr0] at hlpre
  rw [List.take_take, Nat.min_eq_left (by omega)] at hlpre
  intro i hi2
  have h3 : byteAt ((s.take 6).map g_ascii_tolower) i =
      byteAt [109, 97, 105, 108, 116, 111] i := by rw [hlpre]
  rw [byteAt_map_take s g_ascii_tolower 6 i hi2 (by omega)] at h3
  rw [h3]
  interval_cases i <;> decide

/-- In the web-parser branch of rspamd_url_parse an accepted record never
carries the mailto protocol. -/
theorem web_branch_protocol_ne4 (pats : List UrlMatcher) (hi : Nat → Bool)
    (s : List Nat) (uri : RspamdUrl)
    (h0 : ¬ byteAt s 0 = 0)
    (hroute : ¬ (s.length > 7 ∧ g_ascii_strncasecmp s mailtoColon 0 7 = 0))
    (hok : rspamd_url_parse pats hi s = .ok uri) :
    ¬ uri.protocol = 4 := by
  intro hp4
  unfold rspamd_url_parse at hok
  rw [if_neg h0] at hok
  dsimp only at hok
  rw [if_neg hroute] at hok
  rcases Decidable.em ((rspamd_web_parse true hi s).ret = 0) with hret0 | hret0
  case inr =>
    rw [if_pos hret0] at hok
    exact absurd hok (by simp)
  rw [if_neg (not_not_intro hret0)] at hok
  rcases Decidable.em ((rspamd_web_parse true hi s).endPos > 0 ∧
    (rspamd_web_parse true hi s).endPos ≠ s.length) with hmid | hmid
  case inl =>
    rw [if_pos hmid] at hok
    have hff := web_parse_ok_facts hi s hret0
    obtain ⟨fd, hsch, hokk, hbp, h5, h6, h7, h8, h9, h10, h11⟩ := hff
    have hml := assembleUrl_mailto_prefix pats s
      (rspamd_web_parse true hi s).endPos (rspamd_web_parse true hi s).u uri fd
      hsch hokk (by omega) h5 h6 h7 h8 h9 h10 h11 hok hp4
    obtain ⟨hfd6, hml2⟩ := hml
    have hnz : ∀ i < 6, byteAt s i ≠ 0 := fun i hi2 =>
      (protoChar_facts _ (hokk.2.2.2 i (by omega))).1
    have h58 : byteAt s 6 = 58 := by
      have h2 := hokk.2.2.1
      rwa [hfd6] at h2
    have hcmp := strncasecmp_mailto s hml2 hnz h58
    have hlen7 : s.length = 7 := by
      have h2 := hokk.2.1
      by_contra hne
      exact hroute ⟨by omega, hcmp⟩
    have hone := webRun_len7_ret1 hi s hlen7
      (fun i hi2 => hokk.2.2.2 i (by omega)) h58
    rw [hret0] at hone
    exact absurd hone (by decide)
  case inr =>
    rw [if_neg hmid] at hok
    have hff := web_parse_ok_facts hi s hret0
    obtain ⟨fd, hsch, hokk, hbp, h5, h6, h7, h8, h9, h10, h11⟩ := hff
    have hok2 : assembleUrl pats (s.take s.length) s.length
        (rspamd_web_parse true hi s).u = .ok uri := by
      rw [List.take_length]
      exact hok
    have hml := assembleUrl_mailto_prefix pats s s.length
      (rspamd_web_parse true hi s).u uri fd hsch hokk hokk.2.1
      h5 h6 h7 h8 h9 h10 h11 hok2 hp4
    obtain ⟨hfd6, hml2⟩ := hml
    have hnz : ∀ i < 6, byteAt s i ≠ 0 := fun i hi2 =>
      (protoChar_facts _ (hokk.2.2.2 i (by omega))).1
    have h58 : byteAt s 6 = 58 := by
      have h2 := hokk.2.2.1
      rwa [hfd6] at h2
    have hcmp := strncasecmp_mailto s hml2 hnz h58
    have hlen7 : s.length = 7 := by
      have h2 := hokk.2.1
      by_contra hne
      exact hroute ⟨by omega, hcmp⟩
    have hone := webRun_len7_ret1 hi s hlen7
      (fun i hi2 => hokk.2.2.2 i (by omega)) h58
    rw [hret0] at hone
    exact absurd hone (by decide)

/-- C6: every URL record accepted by rspamd_url_parse with scheme mailto
(protocol index 4) has a nonempty userinfo; and the mailto state machine
only emits the UF_USERINFO field for a nonempty run of mailsafe bytes
terminated by the at sign, so an emitted userinfo is never empty. -/
theorem c6_mailto_userinfo :
    (∀ (pats : List UrlMatcher) (hi : Nat → Bool) (s : List Nat)
        (uri : RspamdUrl), rspamd_url_parse pats hi s = .ok uri →
          uri.protocol = 4 → 0 < uri.userlen) ∧
    (∀ (strict : Bool) (s : List Nat) (fd : FieldData),
        (rspamd_mailto_parse strict s).u.userinfo = some fd →
          0 < fd.len ∧ byteAt s (fd.off + fd.len) = 64 ∧
            ∀ i < fd.len, is_mailsafe (byteAt s (fd.off + i)) = true) := by
  constructor
  · intro pats hi s uri hok hp4
    rcases Decidable.em (byteAt s 0 = 0) with h0 | h0
    · unfold rspamd_url_parse at hok
      rw [if_pos h0] at hok
      exact absurd hok (by simp)
    rcases Decidable.em (s.length > 7 ∧
      g_ascii_strncasecmp s mailtoColon 0 7 = 0) with hroute | hroute
    · unfold rspamd_url_parse at hok
      rw [if_neg h0] at hok
      dsimp only at hok
      rw [if_pos hroute] at hok
      rcases Decidable.em ((rspamd_mailto_parse true s).ret = 0)
        with hret0 | hret0
      case inr =>
        rw [if_pos hret0] at hok
        exact absurd hok (by simp)
      rw [if_neg (not_not_intro hret0)] at hok
      obtain ⟨fdu, hfdu, hfdlen⟩ := mailto_ret0_userinfo s hret0
      rcases Decidable.em ((rspamd_mailto_parse true s).endPos > 0 ∧
        (rspamd_mailto_parse true s).endPos ≠ s.length) with hmid | hmid
      · rw [if_pos hmid] at hok
        have hfa := assembleUrl_ok_facts pats _ _ _ uri hok
        rw [hfa.2]
        have h2 : (assembleFields
            (s.take (rspamd_mailto_parse true s).endPos)
            (rspamd_mailto_parse true s).endPos
            (rspamd_mailto_parse true s).u).userlen = fdu.len := by
          simp [assembleFields, hfdu]
        rw [h2]
        exact hfdlen
      · rw [if_neg hmid] at hok
        have hfa := assembleUrl_ok_facts pats _ _ _ uri hok
        rw [hfa.2]
        have h2 : (assembleFields s s.length
            (rspamd_mailto_parse true s).u).userlen = fdu.len := by
          simp [assembleFields, hfdu]
        rw [h2]
        exact hfdlen
    · exact absurd hp4 (web_branch_protocol_ne4 pats hi s uri h0 hroute hok)
  · intro strict s fd hfd
    exact mailto_userinfo_ok strict s fd hfd

/-- C6 witness: mailto:alice@example.co.uk parses to an accepted record
with protocol mailto and the nonempty userinfo alice; the machine-level
clause holds at the emitted userinfo field (offset 7, length 5). -/
theorem c6_mailto_userinfo_witness :
    (rspamd_url_parse scenarioMatchers hiZero
        [109, 97, 105, 108, 116, 111, 58, 97, 108, 105, 99, 101, 64, 101,
          120, 97, 109, 112, 108, 101, 46, 99, 111, 46, 117, 107] =
      .ok (okUri (rspamd_url_parse scenarioMatchers hiZero
        [109, 97, 105, 108, 116, 111, 58, 97, 108, 105, 99, 101, 64, 101,
          120, 97, 109, 112, 108, 101, 46, 99, 111, 46, 117, 107])) ∧
     (okUri (rspamd_url_parse scenarioMatchers hiZero
        [109, 97, 105, 108, 116, 111, 58, 97, 108, 105, 99, 101, 64, 101,
          120, 97, 109, 112, 108, 101, 46, 99, 111, 46, 117, 107])).protocol = 4 ∧
     0 < (okUri (rspamd_url_parse scenarioMatchers hiZero
        [109, 97, 105, 108, 116, 111, 58, 97, 108, 105, 99, 101, 64, 101,
          120, 97, 109, 112, 108, 101, 46, 99, 111, 46, 117, 107])).userlen) ∧
    ((rspamd_mailto_parse true
        [109, 97, 105, 108, 116, 111, 58, 97, 108, 105, 99, 101, 64, 101,
          120, 97, 109, 112, 108, 101, 46, 99, 111, 46, 117, 107]).u.userinfo =
      some ⟨7, 5⟩ ∧
     0 < (⟨7, 5⟩ : FieldData).len ∧
     byteAt [109, 97, 105, 108, 116, 111, 58, 97, 108, 105, 99, 101, 64, 101,
         120, 97, 109, 112, 108, 101, 46, 99, 111, 46, 117, 107]
       ((⟨7, 5⟩ : FieldData).off + (⟨7, 5⟩ : FieldData).len) = 64 ∧
     ∀ i < (⟨7, 5⟩ : FieldData).len,
       is_mailsafe (byteAt [109, 97, 105, 108, 116, 111, 58, 97, 108, 105,
         99, 101, 64, 101, 120, 97, 109, 112, 108, 101, 46, 99, 111, 46,
         117, 107] ((⟨7, 5⟩ : FieldData).off + i)) = true) :=
  ⟨⟨by decide, by decide,
    c6_mailto_userinfo.1 scenarioMatchers hiZero
      [109, 97, 105, 108, 116, 111, 58, 97, 108, 105, 99, 101, 64, 101,
        120, 97, 109, 112, 108, 101, 46, 99, 111, 46, 117, 107]
      (okUri (rspamd_url_parse scenarioMatchers hiZero
        [109, 97, 105, 108, 116, 111, 58, 97, 108, 105, 99, 101, 64, 101,
          120, 97, 109, 112, 108, 101, 46, 99, 111, 46, 117, 107]))
      (by decide) (by decide)⟩,
   (by decide),
   c6_mailto_userinfo.2 true
     [109, 97, 105, 108, 116, 111, 58, 97, 108, 105, 99, 101, 64, 101,
       120, 97, 109, 112, 108, 101, 46, 99, 111, 46, 117, 107]
     ⟨7, 5⟩ (by decide)⟩

end UrlSpec
